import Mathlib

/-!
Verification of the recursive propose/validate/commit/rollback protocol of
`common/configtx/config.go` (hyperledger fabric configuration transactions).

The Go code is embedded shallowly:

* `ConfigGroup` models `cb.ConfigGroup`: the maps `Groups`, `Values`,
  `Policies` become association lists (keys unique; list order stands for
  the — in Go unspecified — map enumeration order).
* `ValueProposer` / `PolicyProposer` model the pluggable handler interfaces
  `config.ValueProposer` and `policies.Proposer`.  A handler is a numeric
  identity plus pure behaviour functions; its side effects are recorded in an
  event trace (`List Event`), so every call the Go code makes
  (`BeginValueProposals`, `BeginPolicyProposals`, `Deserialize`,
  `ProposePolicy`, `PreCommit`, `CommitProposals`, `RollbackProposals`)
  appears as one event.
* `ConfigResult` models `configResult`; `proposeGroup` and `processConfig`
  model the functions of the same names, returning the Go result
  (`Except GoError …` for `(x, error)`) paired with the emitted trace.
* The `configGroupWrapper.deserializedValues` cache is written but never read
  inside `config.go`; the deserialised messages are accumulated by
  `deserializeValues` and discarded by the caller, as in the source.
-/

/-- Errors of the Go code: an opaque error produced by a handler call, or the
`fmt.Errorf("Programming error, did not return as many handlers as groups %d vs %d vs %d", …)`
defect error of `proposeGroup` (carrying `len(subHandlers)`, `len(subGroups)`,
`len(subPolicyHandlers)`). -/
inductive GoError where
  | handlerError (msg : String)
  | programmingError (handlers groups policyHandlers : Nat)
deriving DecidableEq, Repr

/-- `cb.ConfigGroup`: named sub-groups, opaque keyed values, opaque keyed
policies.  Go maps are modelled as association lists. -/
inductive ConfigGroup where
  | mk (groups : List (String × ConfigGroup))
       (values : List (String × String))
       (policies : List (String × String))

/-- The `Groups` map of a config group. -/
def ConfigGroup.groups : ConfigGroup → List (String × ConfigGroup)
  | .mk gs _ _ => gs

/-- The `Values` map of a config group. -/
def ConfigGroup.values : ConfigGroup → List (String × String)
  | .mk _ vs _ => vs

/-- The `Policies` map of a config group. -/
def ConfigGroup.policies : ConfigGroup → List (String × String)
  | .mk _ _ ps => ps

/-- The value deserializer returned by `BeginValueProposals`
(`config.ValueDeserializer`): converts a key and a raw payload into a
deserialized message or an error. -/
structure ValueDeserializer where
  id : Nat
  deserialize : String → String → Except GoError String

/-- `config.ValueProposer` together with its `api.Transactional` side
(`PreCommit`; `CommitProposals`/`RollbackProposals` carry no behaviour, only
events).  `beginValueProposals tx childNames` yields the deserializer and the
positional child value-proposers, or an error. -/
inductive ValueProposer where
  | mk (id : Nat)
       (beginValueProposals :
         ConfigGroup → List String → Except GoError (ValueDeserializer × List ValueProposer))
       (preCommit : ConfigGroup → Except GoError Unit)

/-- Identity of a value proposer. -/
def ValueProposer.id : ValueProposer → Nat
  | .mk i _ _ => i

/-- Behaviour of `BeginValueProposals`. -/
def ValueProposer.beginValueProposals :
    ValueProposer → ConfigGroup → List String → Except GoError (ValueDeserializer × List ValueProposer)
  | .mk _ b _ => b

/-- Behaviour of `PreCommit`. -/
def ValueProposer.preCommit : ValueProposer → ConfigGroup → Except GoError Unit
  | .mk _ _ p => p

/-- `policies.Proposer` together with its `api.Transactional` side. -/
inductive PolicyProposer where
  | mk (id : Nat)
       (beginPolicyProposals :
         ConfigGroup → List String → Except GoError (List PolicyProposer))
       (proposePolicy : ConfigGroup → String → String → Except GoError Unit)

/-- Identity of a policy proposer. -/
def PolicyProposer.id : PolicyProposer → Nat
  | .mk i _ _ => i

/-- Behaviour of `BeginPolicyProposals`. -/
def PolicyProposer.beginPolicyProposals :
    PolicyProposer → ConfigGroup → List String → Except GoError (List PolicyProposer)
  | .mk _ b _ => b

/-- Behaviour of `ProposePolicy`. -/
def PolicyProposer.proposePolicy :
    PolicyProposer → ConfigGroup → String → String → Except GoError Unit
  | .mk _ _ p => p

/-- Which of the two handlers of a node an event belongs to. -/
inductive HKind where
  | value
  | policy
deriving DecidableEq, Repr

/-- One observable call made by the Go code.  Calls that receive the
transaction context record it; `Deserialize` does not take the context in Go
and therefore records none. -/
inductive Event where
  | beginValue (h : Nat) (tx : ConfigGroup) (subGroups : List String)
  | beginPolicy (h : Nat) (tx : ConfigGroup) (subGroups : List String)
  | deserializeValue (d : Nat) (key : String) (raw : String)
  | proposePolicyEv (h : Nat) (tx : ConfigGroup) (key : String) (raw : String)
  | preCommitEv (h : Nat) (tx : ConfigGroup)
  | commitEv (k : HKind) (h : Nat) (tx : ConfigGroup)
  | rollbackEv (k : HKind) (h : Nat) (tx : ConfigGroup)

/-- `configResult`: the transaction context, the two handlers of the node and
the results of the successfully processed children, in processing order. -/
inductive ConfigResult where
  | mk (tx : ConfigGroup) (handler : ValueProposer) (policyHandler : PolicyProposer)
       (subResults : List ConfigResult)

/-- The `tx` field of a `configResult`. -/
def ConfigResult.tx : ConfigResult → ConfigGroup
  | .mk t _ _ _ => t

/-- The `handler` field of a `configResult`. -/
def ConfigResult.handler : ConfigResult → ValueProposer
  | .mk _ h _ _ => h

/-- The `policyHandler` field of a `configResult`. -/
def ConfigResult.policyHandler : ConfigResult → PolicyProposer
  | .mk _ _ p _ => p

/-- The `subResults` field of a `configResult`. -/
def ConfigResult.subResults : ConfigResult → List ConfigResult
  | .mk _ _ _ s => s

mutual

/-- `configResult.preCommit`: pre-commit every sub-result first, aborting on
the first error, then call the node's own value handler's `PreCommit`. -/
def ConfigResult.preCommitRun : ConfigResult → Except GoError Unit × List Event
  | .mk tx h _ subs =>
    match preCommitList subs with
    | (Except.error e, tr) => (Except.error e, tr)
    | (Except.ok _, tr) =>
      match h.preCommit tx with
      | Except.error e => (Except.error e, tr ++ [Event.preCommitEv h.id tx])
      | Except.ok _ => (Except.ok (), tr ++ [Event.preCommitEv h.id tx])

/-- The sub-result loop of `configResult.preCommit`. -/
def preCommitList : List ConfigResult → Except GoError Unit × List Event
  | [] => (Except.ok (), [])
  | r :: rs =>
    match r.preCommitRun with
    | (Except.error e, tr) => (Except.error e, tr)
    | (Except.ok _, tr) =>
      match preCommitList rs with
      | (res, tr2) => (res, tr ++ tr2)

end

mutual

/-- `configResult.commit`: commit every sub-result first, then call
`CommitProposals` on the node's value handler and on its policy handler. -/
def ConfigResult.commitRun : ConfigResult → List Event
  | .mk tx h p subs =>
    commitList subs ++ [Event.commitEv HKind.value h.id tx, Event.commitEv HKind.policy p.id tx]

/-- The sub-result loop of `configResult.commit`. -/
def commitList : List ConfigResult → List Event
  | [] => []
  | r :: rs => r.commitRun ++ commitList rs

end

mutual

/-- `configResult.rollback`: roll back every sub-result first, then call
`RollbackProposals` on the node's value handler and on its policy handler. -/
def ConfigResult.rollbackRun : ConfigResult → List Event
  | .mk tx h p subs =>
    rollbackList subs ++ [Event.rollbackEv HKind.value h.id tx, Event.rollbackEv HKind.policy p.id tx]

/-- The sub-result loop of `configResult.rollback`. -/
def rollbackList : List ConfigResult → List Event
  | [] => []
  | r :: rs => r.rollbackRun ++ rollbackList rs

end

/-- The value loop of `proposeGroup` (`config.go` lines 118–125): deserialize
every value of the node, aborting on the first error; on success the
deserialized messages populate the wrapper cache (returned, then discarded by
the caller as the cache is never read in `config.go`). -/
def deserializeValues (d : ValueDeserializer) :
    List (String × String) → Except GoError (List (String × String)) × List Event
  | [] => (Except.ok [], [])
  | (key, raw) :: rest =>
    match d.deserialize key raw with
    | Except.error e => (Except.error e, [Event.deserializeValue d.id key raw])
    | Except.ok msg =>
      match deserializeValues d rest with
      | (Except.error e, tr) => (Except.error e, Event.deserializeValue d.id key raw :: tr)
      | (Except.ok cache, tr) => (Except.ok ((key, msg) :: cache), Event.deserializeValue d.id key raw :: tr)

/-- The policy loop of `proposeGroup` (`config.go` lines 127–132): propose
every policy of the node, aborting on the first error. -/
def proposePolicies (p : PolicyProposer) (tx : ConfigGroup) :
    List (String × String) → Except GoError Unit × List Event
  | [] => (Except.ok (), [])
  | (key, raw) :: rest =>
    match p.proposePolicy tx key raw with
    | Except.error e => (Except.error e, [Event.proposePolicyEv p.id tx key raw])
    | Except.ok _ =>
      match proposePolicies p tx rest with
      | (res, tr) => (res, Event.proposePolicyEv p.id tx key raw :: tr)

mutual

/-- `configManager.proposeGroup` (`config.go` lines 79–141).  `subGroups` is
the enumeration of the child names of the group (list order stands for Go's
map iteration order); the recursion over the children is `proposeSubGroups`.
On a failure after the `Begin…` calls and the length check, the in-progress
result — sub-results built so far plus this node's own two handlers — is
rolled back before the error is returned unchanged. -/
def proposeGroup (tx : ConfigGroup) (name : String) :
    ConfigGroup → ValueProposer → PolicyProposer →
    Except GoError ConfigResult × List Event
  | ConfigGroup.mk gs vs ps, handler, policyHandler =>
    let subGroups := gs.map Prod.fst
    match handler.beginValueProposals tx subGroups with
    | Except.error e => (Except.error e, [Event.beginValue handler.id tx subGroups])
    | Except.ok (valueDeserializer, subHandlers) =>
      match policyHandler.beginPolicyProposals tx subGroups with
      | Except.error e =>
        (Except.error e,
          [Event.beginValue handler.id tx subGroups, Event.beginPolicy policyHandler.id tx subGroups])
      | Except.ok subPolicyHandlers =>
        if subHandlers.length ≠ subGroups.length ∨ subPolicyHandlers.length ≠ subGroups.length then
          (Except.error (GoError.programmingError subHandlers.length subGroups.length subPolicyHandlers.length),
            [Event.beginValue handler.id tx subGroups, Event.beginPolicy policyHandler.id tx subGroups])
        else
          match proposeSubGroups tx name gs subHandlers subPolicyHandlers with
          | (Sum.inl (built, e), trC) =>
            (Except.error e,
              Event.beginValue handler.id tx subGroups ::
                Event.beginPolicy policyHandler.id tx subGroups ::
                  (trC ++ (ConfigResult.mk tx handler policyHandler built).rollbackRun))
          | (Sum.inr subResults, trC) =>
            let result := ConfigResult.mk tx handler policyHandler subResults
            match deserializeValues valueDeserializer vs with
            | (Except.error e, trV) =>
              (Except.error e,
                Event.beginValue handler.id tx subGroups ::
                  Event.beginPolicy policyHandler.id tx subGroups ::
                    (trC ++ trV ++ result.rollbackRun))
            | (Except.ok _, trV) =>
              match proposePolicies policyHandler tx ps with
              | (Except.error e, trP) =>
                (Except.error e,
                  Event.beginValue handler.id tx subGroups ::
                    Event.beginPolicy policyHandler.id tx subGroups ::
                      (trC ++ trV ++ trP ++ result.rollbackRun))
              | (Except.ok _, trP) =>
                match result.preCommitRun with
                | (Except.error e, trPC) =>
                  (Except.error e,
                    Event.beginValue handler.id tx subGroups ::
                      Event.beginPolicy policyHandler.id tx subGroups ::
                        (trC ++ trV ++ trP ++ trPC ++ result.rollbackRun))
                | (Except.ok _, trPC) =>
                  (Except.ok result,
                    Event.beginValue handler.id tx subGroups ::
                      Event.beginPolicy policyHandler.id tx subGroups ::
                        (trC ++ trV ++ trP ++ trPC))

/-- The child loop of `proposeGroup` (`config.go` lines 109–116): recursively
propose each named child with its positional handlers.  On the first child
failure, return the sub-results built so far together with the child's error
(`Sum.inl`); the caller rolls them back.  The catch-all branch is unreachable:
the handler lists were checked to have the same length as the group list. -/
def proposeSubGroups (tx : ConfigGroup) (name : String) :
    List (String × ConfigGroup) → List ValueProposer → List PolicyProposer →
    ((List ConfigResult × GoError) ⊕ List ConfigResult) × List Event
  | [], _, _ => (Sum.inr [], [])
  | (subName, subGroup) :: rest, vh :: vhs, ph :: phs =>
    match proposeGroup tx (name ++ "/" ++ subName) subGroup vh ph with
    | (Except.error e, tr) => (Sum.inl ([], e), tr)
    | (Except.ok r, tr) =>
      match proposeSubGroups tx name rest vhs phs with
      | (Sum.inl (built, e), tr2) => (Sum.inl (r :: built, e), tr ++ tr2)
      | (Sum.inr rs, tr2) => (Sum.inr (r :: rs), tr ++ tr2)
  | _ :: _, _, _ => (Sum.inr [], [])

end

/-- Modelled from the spec: the fixed well-known key under which the caller's
root group is placed inside the synthetic helper root (`RootGroupKey`, a
string constant declared outside `config.go`; its concrete value is
immaterial to every property proved here). -/
def RootGroupKey : String := "Channel"

/-- The part of `configManager` that `processConfig` consumes: the top-level
value proposer and policy proposer supplied by `cm.initializer`
(`cm.initializer.ValueProposer()` and `cm.initializer.PolicyProposer()`). -/
structure configManager where
  valueProposer : ValueProposer
  policyProposer : PolicyProposer

/-- `configManager.processConfig` (`config.go` lines 143–152): wrap the
caller's group as the sole child of a fresh helper group under
`RootGroupKey`, and propose that helper with the initializer-supplied
top-level handlers, with the caller's group itself as transaction context. -/
def processConfig (cm : configManager) (channelGroup : ConfigGroup) :
    Except GoError ConfigResult × List Event :=
  let helperGroup := ConfigGroup.mk [(RootGroupKey, channelGroup)] [] []
  proposeGroup channelGroup "" helperGroup cm.valueProposer cm.policyProposer

/-- Is the event a `CommitProposals` call? -/
def Event.isCommit : Event → Bool
  | .commitEv _ _ _ => true
  | _ => false

/-- Is the event a `RollbackProposals` call? -/
def Event.isRollback : Event → Bool
  | .rollbackEv _ _ _ => true
  | _ => false

/-- Is the event a `PreCommit` call? -/
def Event.isPreCommit : Event → Bool
  | .preCommitEv _ _ => true
  | _ => false

/-- Is the event a `PreCommit` call on the value handler with identity `h`? -/
def Event.isPreCommitOf (h : Nat) : Event → Bool
  | .preCommitEv h' _ => h == h'
  | _ => false

/-- Is the event a proposal of node content: a value deserialization or a
`ProposePolicy` call? -/
def Event.isProposal : Event → Bool
  | .deserializeValue _ _ _ => true
  | .proposePolicyEv _ _ _ _ => true
  | _ => false

/-- The transaction context an event received, if the corresponding Go call
takes one (`Deserialize` does not). -/
def Event.txOf : Event → Option ConfigGroup
  | .beginValue _ tx _ => some tx
  | .beginPolicy _ tx _ => some tx
  | .deserializeValue _ _ _ => none
  | .proposePolicyEv _ tx _ _ => some tx
  | .preCommitEv _ tx => some tx
  | .commitEv _ _ tx => some tx
  | .rollbackEv _ _ tx => some tx

/-- No event of the trace is a `CommitProposals` call. -/
def NoCommit (tr : List Event) : Prop := ∀ e ∈ tr, e.isCommit = false

/-- Every event of the trace satisfies `P`. -/
def AllEv (P : Event → Prop) (tr : List Event) : Prop := ∀ e ∈ tr, P e

/-- The shapes of events the proposal phase can emit for the transaction
context `tx`: every handler call except `CommitProposals`, each carrying `tx`
when the Go call takes the context. -/
def ProposalEv (tx : ConfigGroup) (e : Event) : Prop :=
  (∃ h ns, e = Event.beginValue h tx ns) ∨
  (∃ h ns, e = Event.beginPolicy h tx ns) ∨
  (∃ d k r, e = Event.deserializeValue d k r) ∨
  (∃ h k r, e = Event.proposePolicyEv h tx k r) ∨
  (∃ h, e = Event.preCommitEv h tx) ∨
  (∃ k h, e = Event.rollbackEv k h tx)

/-- Every node of the result tree stores `tx` as its transaction context —
true of every result `proposeGroup` builds, since the context is threaded
unchanged through the recursion. -/
inductive ResultTxAll (tx : ConfigGroup) : ConfigResult → Prop where
  | mk : ∀ (h : ValueProposer) (p : PolicyProposer) (subs : List ConfigResult),
      (∀ r ∈ subs, ResultTxAll tx r) → ResultTxAll tx (ConfigResult.mk tx h p subs)


mutual

/-- Number of nodes of a config tree. -/
def ConfigGroup.nodeCount : ConfigGroup → Nat
  | .mk gs _ _ => 1 + nodeCountList gs

/-- Number of nodes of the sub-trees of a child list. -/
def nodeCountList : List (String × ConfigGroup) → Nat
  | [] => 0
  | (_, g) :: rest => g.nodeCount + nodeCountList rest

end

mutual

/-- Number of `PreCommit` invocations a fully successful `proposeGroup` pass
over the tree performs: each node's own pass runs the pre-commit cascade over
its whole subtree, so a node is pre-committed once per enclosing completed
pass — `pcWeight g = Σ over children (pcWeight child) + nodeCount g`. -/
def ConfigGroup.pcWeight : ConfigGroup → Nat
  | .mk gs _ _ => pcWeightList gs + (1 + nodeCountList gs)

/-- Sum of `pcWeight` over a child list. -/
def pcWeightList : List (String × ConfigGroup) → Nat
  | [] => 0
  | (_, g) :: rest => g.pcWeight + pcWeightList rest

end

mutual

/-- Number of nodes of a result tree. -/
def ConfigResult.nodeCount : ConfigResult → Nat
  | .mk _ _ _ subs => 1 + resultNodeCountList subs

/-- Number of nodes of the trees of a sub-result list. -/
def resultNodeCountList : List ConfigResult → Nat
  | [] => 0
  | r :: rest => r.nodeCount + resultNodeCountList rest

end

mutual

/-- The result tree has exactly one entry per node of the config tree, with
the same nesting: `subResults` matches the child list positionally. -/
inductive Mirrors : ConfigResult → ConfigGroup → Prop where
  | mk : ∀ (tx : ConfigGroup) (h : ValueProposer) (p : PolicyProposer)
      (subs : List ConfigResult) (gs : List (String × ConfigGroup))
      (vs ps : List (String × String)),
      MirrorsList subs gs →
      Mirrors (ConfigResult.mk tx h p subs) (ConfigGroup.mk gs vs ps)

/-- Pointwise `Mirrors` between a sub-result list and a child list. -/
inductive MirrorsList : List ConfigResult → List (String × ConfigGroup) → Prop where
  | nil : MirrorsList [] []
  | cons : ∀ (r : ConfigResult) (pr : String × ConfigGroup)
      (rs : List ConfigResult) (gs : List (String × ConfigGroup)),
      Mirrors r pr.2 → MirrorsList rs gs → MirrorsList (r :: rs) (pr :: gs)

end

/-- `s` is a node of the result tree `r` (reflexive, through `subResults`). -/
inductive Subtree : ConfigResult → ConfigResult → Prop where
  | refl : ∀ (r : ConfigResult), Subtree r r
  | step : ∀ {s c r : ConfigResult}, c ∈ r.subResults → Subtree s c → Subtree s r

/-- The child loop of `proposeGroup` re-indexed over the zipped list of
(child, value handler, policy handler) triples; used to reason about
permutations of the sibling enumeration order.  Equals `proposeSubGroups`
whenever the three lists have one entry per child (the checked case). -/
def proposeTriples (tx : ConfigGroup) (name : String) :
    List ((String × ConfigGroup) × ValueProposer × PolicyProposer) →
    ((List ConfigResult × GoError) ⊕ List ConfigResult) × List Event
  | [] => (Sum.inr [], [])
  | ((subName, subGroup), vh, ph) :: rest =>
    match proposeGroup tx (name ++ "/" ++ subName) subGroup vh ph with
    | (Except.error e, tr) => (Sum.inl ([], e), tr)
    | (Except.ok r, tr) =>
      match proposeTriples tx name rest with
      | (Sum.inl (built, e), tr2) => (Sum.inl (r :: built, e), tr ++ tr2)
      | (Sum.inr rs, tr2) => (Sum.inr (r :: rs), tr ++ tr2)

/-- The recursive call `proposeGroup` makes for one (child, handlers) triple. -/
def childRun (tx : ConfigGroup) (name : String)
    (t : (String × ConfigGroup) × ValueProposer × PolicyProposer) :
    Except GoError ConfigResult × List Event :=
  proposeGroup tx (name ++ "/" ++ t.1.1) t.1.2 t.2.1 t.2.2

instance : Inhabited ConfigResult :=
  ⟨ConfigResult.mk (ConfigGroup.mk [] [] [])
    (ValueProposer.mk 0 (fun _ _ => Except.error (GoError.handlerError "")) (fun _ => Except.ok ()))
    (PolicyProposer.mk 0 (fun _ _ => Except.error (GoError.handlerError "")) (fun _ _ _ => Except.ok ()))
    []⟩

/-- The result of a successful child run (default value when the run failed). -/
def childRes (tx : ConfigGroup) (name : String)
    (t : (String × ConfigGroup) × ValueProposer × PolicyProposer) : ConfigResult :=
  match (childRun tx name t).1 with
  | Except.ok r => r
  | Except.error _ => default

/-- A deserializer that accepts every value. -/
def okDeser : ValueDeserializer := ⟨100, fun _ _ => Except.ok "msg"⟩

/-- A leaf value proposer: no children, every call succeeds. -/
def leafVP (i : Nat) : ValueProposer :=
  ValueProposer.mk i (fun _ _ => Except.ok (okDeser, [])) (fun _ => Except.ok ())

/-- A leaf policy proposer: no children, every call succeeds. -/
def leafPP (i : Nat) : PolicyProposer :=
  PolicyProposer.mk i (fun _ _ => Except.ok []) (fun _ _ _ => Except.ok ())

/-- A value proposer handing out the given child proposers positionally. -/
def nodeVP (i : Nat) (cs : List ValueProposer) : ValueProposer :=
  ValueProposer.mk i (fun _ _ => Except.ok (okDeser, cs)) (fun _ => Except.ok ())

/-- A policy proposer handing out the given child proposers positionally. -/
def nodePP (i : Nat) (cs : List PolicyProposer) : PolicyProposer :=
  PolicyProposer.mk i (fun _ _ => Except.ok cs) (fun _ _ _ => Except.ok ())

/-- A value proposer whose `BeginValueProposals` fails. -/
def failBeginVP (i : Nat) (msg : String) : ValueProposer :=
  ValueProposer.mk i (fun _ _ => Except.error (GoError.handlerError msg)) (fun _ => Except.ok ())

/-- A leaf value proposer whose `PreCommit` fails. -/
def failPreVP (i : Nat) (msg : String) : ValueProposer :=
  ValueProposer.mk i (fun _ _ => Except.ok (okDeser, []))
    (fun _ => Except.error (GoError.handlerError msg))

/-- A value proposer assigning child proposers by child name, so that its
answers are aligned with the names independently of their order. -/
def alignVP (i : Nat) : ValueProposer :=
  ValueProposer.mk i
    (fun _ ns => Except.ok (okDeser, ns.map fun n => if n = "A" then leafVP 21 else leafVP 22))
    (fun _ => Except.ok ())

/-- A policy proposer assigning child proposers by child name. -/
def alignPP (i : Nat) : PolicyProposer :=
  PolicyProposer.mk i
    (fun _ ns => Except.ok (ns.map fun n => if n = "A" then leafPP 31 else leafPP 32))
    (fun _ _ _ => Except.ok ())

/-- An empty config group. -/
def leafGroup : ConfigGroup := ConfigGroup.mk [] [] []

/-- A leaf group holding one value. -/
def valGroup : ConfigGroup := ConfigGroup.mk [] [("k", "va")] []

/-- A leaf group holding one policy. -/
def polGroup : ConfigGroup := ConfigGroup.mk [] [] [("p", "pb")]

/-- A manager whose run over `leafGroup` succeeds. -/
def cmOk : configManager := ⟨nodeVP 1 [leafVP 2], nodePP 3 [leafPP 4]⟩

/-- A manager whose run over `leafGroup` fails in the child's `PreCommit`. -/
def cmFailPre : configManager := ⟨nodeVP 1 [failPreVP 2 "boom"], nodePP 3 [leafPP 4]⟩

/-- A manager whose run over `leafGroup` fails in the child's
`BeginValueProposals`. -/
def cmFailBegin : configManager := ⟨nodeVP 1 [failBeginVP 2 "boom"], nodePP 3 [leafPP 4]⟩

/-- A value proposer whose `BeginValueProposals` answer depends on the ORDER
of the child names it is given: it accepts the enumeration `["A", "B"]` and
rejects every other one. -/
def fussyVP (i : Nat) : ValueProposer :=
  ValueProposer.mk i
    (fun _ ns =>
      if ns = ["A", "B"] then Except.ok (okDeser, [leafVP 21, leafVP 22])
      else Except.error (GoError.handlerError "order"))
    (fun _ => Except.ok ())


theorem allEv_nil {P : Event → Prop} : AllEv P [] := by
  intro e he; simp at he

theorem allEv_cons {P : Event → Prop} {e : Event} {tr : List Event}
    (h : P e) (ht : AllEv P tr) : AllEv P (e :: tr) := by
  intro x hx
  rcases List.mem_cons.mp hx with rfl | hx
  · exact h
  · exact ht x hx

theorem allEv_append {P : Event → Prop} {t1 t2 : List Event}
    (h1 : AllEv P t1) (h2 : AllEv P t2) : AllEv P (t1 ++ t2) := by
  intro x hx
  rcases List.mem_append.mp hx with hx | hx
  · exact h1 x hx
  · exact h2 x hx

theorem proposalEv_beginValue {tx : ConfigGroup} {h : Nat} {ns : List String} :
    ProposalEv tx (Event.beginValue h tx ns) := Or.inl ⟨h, ns, rfl⟩

theorem proposalEv_beginPolicy {tx : ConfigGroup} {h : Nat} {ns : List String} :
    ProposalEv tx (Event.beginPolicy h tx ns) := Or.inr (Or.inl ⟨h, ns, rfl⟩)

theorem proposalEv_deserialize {tx : ConfigGroup} {d : Nat} {k r : String} :
    ProposalEv tx (Event.deserializeValue d k r) := Or.inr (Or.inr (Or.inl ⟨d, k, r, rfl⟩))

theorem proposalEv_proposePolicy {tx : ConfigGroup} {h : Nat} {k r : String} :
    ProposalEv tx (Event.proposePolicyEv h tx k r) :=
  Or.inr (Or.inr (Or.inr (Or.inl ⟨h, k, r, rfl⟩)))

theorem proposalEv_preCommit {tx : ConfigGroup} {h : Nat} :
    ProposalEv tx (Event.preCommitEv h tx) :=
  Or.inr (Or.inr (Or.inr (Or.inr (Or.inl ⟨h, rfl⟩))))

theorem proposalEv_rollback {tx : ConfigGroup} {k : HKind} {h : Nat} :
    ProposalEv tx (Event.rollbackEv k h tx) :=
  Or.inr (Or.inr (Or.inr (Or.inr (Or.inr ⟨k, h, rfl⟩))))

theorem proposalEv_noCommit {tx : ConfigGroup} {e : Event}
    (h : ProposalEv tx e) : e.isCommit = false := by
  rcases h with ⟨a, b, rfl⟩ | ⟨a, b, rfl⟩ | ⟨a, b, c, rfl⟩ | ⟨a, b, c, rfl⟩ | ⟨a, rfl⟩ | ⟨a, b, rfl⟩ <;> rfl

theorem proposalEv_txOf {tx : ConfigGroup} {e : Event}
    (h : ProposalEv tx e) : e.txOf = some tx ∨ e.txOf = none := by
  rcases h with ⟨a, b, rfl⟩ | ⟨a, b, rfl⟩ | ⟨a, b, c, rfl⟩ | ⟨a, b, c, rfl⟩ | ⟨a, rfl⟩ | ⟨a, b, rfl⟩
  · exact Or.inl rfl
  · exact Or.inl rfl
  · exact Or.inr rfl
  · exact Or.inl rfl
  · exact Or.inl rfl
  · exact Or.inl rfl

mutual

theorem rollbackRun_allEv (tx : ConfigGroup) :
    ∀ (r : ConfigResult), ResultTxAll tx r → AllEv (ProposalEv tx) r.rollbackRun
  | ConfigResult.mk _ h p subs, hr => by
    cases hr with
    | mk _ _ _ hsubs =>
      simp only [ConfigResult.rollbackRun]
      exact allEv_append (rollbackList_allEv tx subs hsubs)
        (allEv_cons proposalEv_rollback (allEv_cons proposalEv_rollback allEv_nil))

theorem rollbackList_allEv (tx : ConfigGroup) :
    ∀ (rs : List ConfigResult), (∀ r ∈ rs, ResultTxAll tx r) →
      AllEv (ProposalEv tx) (rollbackList rs)
  | [], _ => by simp only [rollbackList]; exact allEv_nil
  | r :: rs, hall => by
    simp only [rollbackList]
    exact allEv_append
      (rollbackRun_allEv tx r (hall r (List.mem_cons_self r rs)))
      (rollbackList_allEv tx rs (fun x hx => hall x (List.mem_cons_of_mem r hx)))

end

mutual

theorem preCommitRun_allEv (tx : ConfigGroup) :
    ∀ (r : ConfigResult), ResultTxAll tx r → AllEv (ProposalEv tx) r.preCommitRun.2
  | ConfigResult.mk _ h p subs, hr => by
    cases hr with
    | mk _ _ _ hsubs =>
      have hl := preCommitList_allEv tx subs hsubs
      simp only [ConfigResult.preCommitRun]
      rcases hpl : preCommitList subs with ⟨res, tr⟩
      rw [hpl] at hl
      rcases res with e1 | u
      · exact hl
      · rcases hc : h.preCommit tx with e2 | u2 <;> simp only [hc] <;>
          exact allEv_append hl (allEv_cons proposalEv_preCommit allEv_nil)

theorem preCommitList_allEv (tx : ConfigGroup) :
    ∀ (rs : List ConfigResult), (∀ r ∈ rs, ResultTxAll tx r) →
      AllEv (ProposalEv tx) (preCommitList rs).2
  | [], _ => by simp only [preCommitList]; exact allEv_nil
  | r :: rs, hall => by
    have hr := preCommitRun_allEv tx r (hall r (List.mem_cons_self r rs))
    have hrs := preCommitList_allEv tx rs (fun x hx => hall x (List.mem_cons_of_mem r hx))
    simp only [preCommitList]
    rcases hpr : r.preCommitRun with ⟨res, tr⟩
    rw [hpr] at hr
    rcases res with e1 | u
    · exact hr
    · rcases hpl : preCommitList rs with ⟨res2, tr2⟩
      rw [hpl] at hrs
      exact allEv_append hr hrs

end

theorem deserializeValues_allEv (tx : ConfigGroup) (d : ValueDeserializer) :
    ∀ (vs : List (String × String)), AllEv (ProposalEv tx) (deserializeValues d vs).2
  | [] => by simp only [deserializeValues]; exact allEv_nil
  | (key, raw) :: rest => by
    have hrest := deserializeValues_allEv tx d rest
    simp only [deserializeValues]
    rcases hd : d.deserialize key raw with e1 | msg
    · exact allEv_cons proposalEv_deserialize allEv_nil
    · rcases hdr : deserializeValues d rest with ⟨res, tr⟩
      rw [hdr] at hrest
      rcases res with e2 | cache <;>
        exact allEv_cons proposalEv_deserialize hrest

theorem proposePolicies_allEv (tx : ConfigGroup) (p : PolicyProposer) :
    ∀ (ps : List (String × String)), AllEv (ProposalEv tx) (proposePolicies p tx ps).2
  | [] => by simp only [proposePolicies]; exact allEv_nil
  | (key, raw) :: rest => by
    have hrest := proposePolicies_allEv tx p rest
    simp only [proposePolicies]
    rcases hp : p.proposePolicy tx key raw with e1 | u
    · exact allEv_cons proposalEv_proposePolicy allEv_nil
    · rcases hpr : proposePolicies p tx rest with ⟨res, tr⟩
      rw [hpr] at hrest
      exact allEv_cons proposalEv_proposePolicy hrest

mutual

theorem proposeGroup_ev (tx : ConfigGroup) (name : String) :
    ∀ (g : ConfigGroup) (handler : ValueProposer) (policyHandler : PolicyProposer),
      AllEv (ProposalEv tx) (proposeGroup tx name g handler policyHandler).2 ∧
      (∀ r, (proposeGroup tx name g handler policyHandler).1 = Except.ok r → ResultTxAll tx r)
  | ConfigGroup.mk gs vs ps, handler, policyHandler => by
    rw [proposeGroup]
    rcases hbv : handler.beginValueProposals tx (List.map Prod.fst gs) with e1 | ⟨d, vhs⟩ <;>
      simp only [hbv]
    · refine ⟨allEv_cons proposalEv_beginValue allEv_nil, fun r hr => absurd hr (by simp)⟩
    · rcases hbp : policyHandler.beginPolicyProposals tx (List.map Prod.fst gs) with e2 | phs <;>
        simp only [hbp]
      · exact ⟨allEv_cons proposalEv_beginValue (allEv_cons proposalEv_beginPolicy allEv_nil),
          fun r hr => absurd hr (by simp)⟩
      · by_cases hlen :
          vhs.length ≠ (List.map Prod.fst gs).length ∨ phs.length ≠ (List.map Prod.fst gs).length
        · rw [if_pos hlen]
          exact ⟨allEv_cons proposalEv_beginValue (allEv_cons proposalEv_beginPolicy allEv_nil),
            fun r hr => absurd hr (by simp)⟩
        · rw [if_neg hlen]
          have hsub := proposeSubGroups_ev tx name gs vhs phs
          rcases hsg : proposeSubGroups tx name gs vhs phs with ⟨⟨built, e3⟩ | subResults, trC⟩ <;>
            rw [hsg] at hsub <;> obtain ⟨hsubtr, hsubinl, hsubinr⟩ := hsub <;> simp only [hsg]
          · refine ⟨allEv_cons proposalEv_beginValue (allEv_cons proposalEv_beginPolicy
              (allEv_append hsubtr (rollbackRun_allEv tx _ ?_))),
              fun r hr => absurd hr (by simp)⟩
            exact ResultTxAll.mk handler policyHandler built (hsubinl built e3 rfl)
          · have hres : ResultTxAll tx (ConfigResult.mk tx handler policyHandler subResults) :=
              ResultTxAll.mk handler policyHandler subResults (hsubinr subResults rfl)
            have hdvAll := deserializeValues_allEv tx d vs
            rcases hde : deserializeValues d vs with ⟨e4 | cache, trV⟩ <;>
              rw [hde] at hdvAll <;> simp only [hde]
            · exact ⟨allEv_cons proposalEv_beginValue (allEv_cons proposalEv_beginPolicy
                (allEv_append (allEv_append hsubtr hdvAll) (rollbackRun_allEv tx _ hres))),
                fun r hr => absurd hr (by simp)⟩
            · have hppAll := proposePolicies_allEv tx policyHandler ps
              rcases hpr : proposePolicies policyHandler tx ps with ⟨e5 | u, trP⟩ <;>
                rw [hpr] at hppAll <;> simp only [hpr]
              · exact ⟨allEv_cons proposalEv_beginValue (allEv_cons proposalEv_beginPolicy
                  (allEv_append (allEv_append (allEv_append hsubtr hdvAll) hppAll)
                    (rollbackRun_allEv tx _ hres))),
                  fun r hr => absurd hr (by simp)⟩
              · have hpcAll := preCommitRun_allEv tx _ hres
                rcases hpcr : (ConfigResult.mk tx handler policyHandler subResults).preCommitRun with
                  ⟨e6 | u2, trPC⟩ <;> rw [hpcr] at hpcAll <;> simp only [hpcr]
                · exact ⟨allEv_cons proposalEv_beginValue (allEv_cons proposalEv_beginPolicy
                    (allEv_append (allEv_append (allEv_append (allEv_append hsubtr hdvAll) hppAll)
                      hpcAll) (rollbackRun_allEv tx _ hres))),
                    fun r hr => absurd hr (by simp)⟩
                · refine ⟨allEv_cons proposalEv_beginValue (allEv_cons proposalEv_beginPolicy
                    (allEv_append (allEv_append (allEv_append hsubtr hdvAll) hppAll) hpcAll)), ?_⟩
                  intro r hr
                  simp only [Except.ok.injEq] at hr
                  subst hr
                  exact hres

theorem proposeSubGroups_ev (tx : ConfigGroup) (name : String) :
    ∀ (l : List (String × ConfigGroup)) (vhs : List ValueProposer) (phs : List PolicyProposer),
      AllEv (ProposalEv tx) (proposeSubGroups tx name l vhs phs).2 ∧
      (∀ built e, (proposeSubGroups tx name l vhs phs).1 = Sum.inl (built, e) →
        ∀ r ∈ built, ResultTxAll tx r) ∧
      (∀ rs, (proposeSubGroups tx name l vhs phs).1 = Sum.inr rs →
        ∀ r ∈ rs, ResultTxAll tx r)
  | [], _, _ => by
    refine ⟨by simp only [proposeSubGroups]; exact allEv_nil, ?_, ?_⟩
    · intro built e h
      simp only [proposeSubGroups] at h
      exact Sum.noConfusion h
    · intro rs h
      simp only [proposeSubGroups, Sum.inr.injEq] at h
      subst h
      intro r hr
      simp at hr
  | (subName, subGroup) :: rest, [], _ => by
    refine ⟨by simp only [proposeSubGroups]; exact allEv_nil, ?_, ?_⟩
    · intro built e h
      simp only [proposeSubGroups] at h
      exact Sum.noConfusion h
    · intro rs h
      simp only [proposeSubGroups, Sum.inr.injEq] at h
      subst h
      intro r hr
      simp at hr
  | (subName, subGroup) :: rest, vh :: vhs, [] => by
    refine ⟨by simp only [proposeSubGroups]; exact allEv_nil, ?_, ?_⟩
    · intro built e h
      simp only [proposeSubGroups] at h
      exact Sum.noConfusion h
    · intro rs h
      simp only [proposeSubGroups, Sum.inr.injEq] at h
      subst h
      intro r hr
      simp at hr
  | (subName, subGroup) :: rest, vh :: vhs, ph :: phs => by
    have hchild := proposeGroup_ev tx (name ++ "/" ++ subName) subGroup vh ph
    rw [proposeSubGroups]
    rcases hpg : proposeGroup tx (name ++ "/" ++ subName) subGroup vh ph with ⟨e1 | r, tr⟩ <;>
      rw [hpg] at hchild <;> obtain ⟨hctr, hcres⟩ := hchild <;> simp only [hpg]
    · refine ⟨hctr, ?_, ?_⟩
      · intro built e h
        simp only [Sum.inl.injEq, Prod.mk.injEq] at h
        obtain ⟨hb, _⟩ := h
        subst hb
        intro r hr
        simp at hr
      · intro rs h
        simp at h
    · have hr : ResultTxAll tx r := hcres r rfl
      have hrest := proposeSubGroups_ev tx name rest vhs phs
      rcases hps : proposeSubGroups tx name rest vhs phs with ⟨⟨built2, e2⟩ | rs2, tr2⟩ <;>
        rw [hps] at hrest <;> obtain ⟨hrtr, hrinl, hrinr⟩ := hrest <;> simp only [hps]
      · refine ⟨allEv_append hctr hrtr, ?_, ?_⟩
        · intro built e h
          simp only [Sum.inl.injEq, Prod.mk.injEq] at h
          obtain ⟨hb, _⟩ := h
          subst hb
          intro x hx
          rcases List.mem_cons.mp hx with rfl | hx
          · exact hr
          · exact hrinl built2 e2 rfl x hx
        · intro rs h
          simp at h
      · refine ⟨allEv_append hctr hrtr, ?_, ?_⟩
        · intro built e h
          simp at h
        · intro rs h
          simp only [Sum.inr.injEq] at h
          subst h
          intro x hx
          rcases List.mem_cons.mp hx with rfl | hx
          · exact hr
          · exact hrinr rs2 rfl x hx

end

theorem proposeGroup_noCommit (tx : ConfigGroup) (name : String)
    (g : ConfigGroup) (handler : ValueProposer) (policyHandler : PolicyProposer) :
    NoCommit (proposeGroup tx name g handler policyHandler).2 :=
  fun e he => proposalEv_noCommit ((proposeGroup_ev tx name g handler policyHandler).1 e he)

/-- C1: Atomicity — for every input tree and every set of proposers, if
`processConfig` returns an error then no `CommitProposals` call was made on
any value handler or policy handler of any node of the attempted tree: the
run's trace contains no commit event.  (Commits are only emitted by
`ConfigResult.commitRun`, reachable solely through a returned result, which
does not exist on error.) -/
theorem processConfig_error_no_commit (cm : configManager) (g : ConfigGroup) (e : GoError)
    (_herr : (processConfig cm g).1 = Except.error e) :
    ∀ ev ∈ (processConfig cm g).2, ev.isCommit = false :=
  fun ev hev => proposeGroup_noCommit g "" (ConfigGroup.mk [(RootGroupKey, g)] [] [])
    cm.valueProposer cm.policyProposer ev hev

/-- C1 witness: a run whose child `PreCommit` fails; `processConfig` errors
and the first trace event is not a commit. -/
theorem processConfig_error_no_commit_witness :
    (processConfig cmFailPre leafGroup).1 = Except.error (GoError.handlerError "boom") ∧
    (Event.beginValue 1 leafGroup [RootGroupKey]).isCommit = false :=
  ⟨rfl,
    processConfig_error_no_commit cmFailPre leafGroup (GoError.handlerError "boom") rfl
      (Event.beginValue 1 leafGroup [RootGroupKey]) (List.Mem.head _)⟩

theorem proposeGroup_head (tx : ConfigGroup) (name : String)
    (gs : List (String × ConfigGroup)) (vs ps : List (String × String))
    (handler : ValueProposer) (policyHandler : PolicyProposer) :
    (proposeGroup tx name (ConfigGroup.mk gs vs ps) handler policyHandler).2.head? =
      some (Event.beginValue handler.id tx (gs.map Prod.fst)) := by
  rw [proposeGroup]
  rcases hbv : handler.beginValueProposals tx (List.map Prod.fst gs) with e1 | ⟨d, vhs⟩ <;>
    simp only [hbv]
  · rfl
  · rcases hbp : policyHandler.beginPolicyProposals tx (List.map Prod.fst gs) with e2 | phs <;>
      simp only [hbp]
    · rfl
    · by_cases hlen :
        vhs.length ≠ (List.map Prod.fst gs).length ∨ phs.length ≠ (List.map Prod.fst gs).length
      · rw [if_pos hlen]
        rfl
      · rw [if_neg hlen]
        rcases hsg : proposeSubGroups tx name gs vhs phs with ⟨⟨built, e3⟩ | subResults, trC⟩ <;>
          simp only [hsg]
        · rfl
        · rcases hde : deserializeValues d vs with ⟨e4 | cache, trV⟩ <;> simp only [hde]
          · rfl
          · rcases hpr : proposePolicies policyHandler tx ps with ⟨e5 | u, trP⟩ <;>
              simp only [hpr]
            · rfl
            · rcases hpcr :
                (ConfigResult.mk tx handler policyHandler subResults).preCommitRun with
                ⟨e6 | u2, trPC⟩ <;> simp only [hpcr] <;> rfl

/-- C7: Root wrapping — `processConfig g` proposes a synthetic anonymous root
whose sole child is `g` under the fixed key `RootGroupKey`, using the
initializer-supplied top-level proposers, with `g` itself as the transaction
context: the run literally is `proposeGroup` on that helper group, its first
event is the top-level `BeginValueProposals` call carrying `g` as context and
`[RootGroupKey]` as the child-name list (so `g`'s own values and policies are
processed as those of a named child, not of the tree root), and every event
of the trace carries `g` as its transaction context (or none, for
`Deserialize`, which takes no context in Go). -/
theorem processConfig_root_wrapping (cm : configManager) (g : ConfigGroup) :
    processConfig cm g =
      proposeGroup g "" (ConfigGroup.mk [(RootGroupKey, g)] [] [])
        cm.valueProposer cm.policyProposer ∧
    (processConfig cm g).2.head? =
      some (Event.beginValue cm.valueProposer.id g [RootGroupKey]) ∧
    ∀ ev ∈ (processConfig cm g).2, ev.txOf = some g ∨ ev.txOf = none := by
  refine ⟨rfl, ?_, ?_⟩
  · exact proposeGroup_head g "" [(RootGroupKey, g)] [] [] cm.valueProposer cm.policyProposer
  · intro ev hev
    exact proposalEv_txOf
      ((proposeGroup_ev g "" (ConfigGroup.mk [(RootGroupKey, g)] [] [])
        cm.valueProposer cm.policyProposer).1 ev hev)

/-- C7 witness: the root-wrapping facts instantiated on a concrete manager
and group, including the context of the run's first event. -/
theorem processConfig_root_wrapping_witness :
    (processConfig cmOk leafGroup).2.head? =
      some (Event.beginValue 1 leafGroup [RootGroupKey]) ∧
    ((Event.beginValue 1 leafGroup [RootGroupKey]).txOf = some leafGroup ∨
      (Event.beginValue 1 leafGroup [RootGroupKey]).txOf = none) :=
  ⟨(processConfig_root_wrapping cmOk leafGroup).2.1,
    (processConfig_root_wrapping cmOk leafGroup).2.2
      (Event.beginValue 1 leafGroup [RootGroupKey]) (List.Mem.head _)⟩

/-- C5: Mismatch detection — if at a node the value proposer or the policy
proposer answers the `Begin…` calls with a child-handler sequence whose
length differs from the number of declared child group names, `proposeGroup`
fails with the distinct contract-violation error kind
(`GoError.programmingError`, carrying the three lengths), returns no result,
and its trace consists of the two `Begin…` events only — in particular no
rollback is invoked at that level. -/
theorem proposeGroup_mismatch (tx : ConfigGroup) (name : String)
    (gs : List (String × ConfigGroup)) (vs ps : List (String × String))
    (handler : ValueProposer) (policyHandler : PolicyProposer)
    (d : ValueDeserializer) (vhs : List ValueProposer) (phs : List PolicyProposer)
    (hbv : handler.beginValueProposals tx (gs.map Prod.fst) = Except.ok (d, vhs))
    (hbp : policyHandler.beginPolicyProposals tx (gs.map Prod.fst) = Except.ok phs)
    (hlen : vhs.length ≠ gs.length ∨ phs.length ≠ gs.length) :
    proposeGroup tx name (ConfigGroup.mk gs vs ps) handler policyHandler =
      (Except.error (GoError.programmingError vhs.length gs.length phs.length),
        [Event.beginValue handler.id tx (gs.map Prod.fst),
         Event.beginPolicy policyHandler.id tx (gs.map Prod.fst)]) := by
  rw [proposeGroup]
  simp only [hbv, hbp, List.length_map]
  rw [if_pos hlen]

/-- C5 witness: a value proposer answering with zero child handlers for one
declared child name yields the contract-violation error and only the two
`Begin…` events. -/
theorem proposeGroup_mismatch_witness :
    proposeGroup leafGroup "" (ConfigGroup.mk [("A", leafGroup)] [] [])
      (nodeVP 1 []) (nodePP 3 [leafPP 4]) =
      (Except.error (GoError.programmingError 0 1 1),
        [Event.beginValue 1 leafGroup ["A"], Event.beginPolicy 3 leafGroup ["A"]]) :=
  proposeGroup_mismatch leafGroup "" [("A", leafGroup)] [] [] (nodeVP 1 [])
    (nodePP 3 [leafPP 4]) okDeser [] [leafPP 4] rfl rfl (Or.inl (by decide))

theorem proposeGroup_error_inv (tx : ConfigGroup) (name : String)
    (gs : List (String × ConfigGroup)) (vs ps : List (String × String))
    (handler : ValueProposer) (policyHandler : PolicyProposer) (e : GoError) (tr : List Event)
    (h : proposeGroup tx name (ConfigGroup.mk gs vs ps) handler policyHandler =
      (Except.error e, tr)) :
    (handler.beginValueProposals tx (gs.map Prod.fst) = Except.error e ∧
      tr = [Event.beginValue handler.id tx (gs.map Prod.fst)]) ∨
    (∃ d vhs, handler.beginValueProposals tx (gs.map Prod.fst) = Except.ok (d, vhs) ∧
      policyHandler.beginPolicyProposals tx (gs.map Prod.fst) = Except.error e ∧
      tr = [Event.beginValue handler.id tx (gs.map Prod.fst),
            Event.beginPolicy policyHandler.id tx (gs.map Prod.fst)]) ∨
    (∃ d vhs phs, handler.beginValueProposals tx (gs.map Prod.fst) = Except.ok (d, vhs) ∧
      policyHandler.beginPolicyProposals tx (gs.map Prod.fst) = Except.ok phs ∧
      (vhs.length ≠ gs.length ∨ phs.length ≠ gs.length) ∧
      e = GoError.programmingError vhs.length gs.length phs.length ∧
      tr = [Event.beginValue handler.id tx (gs.map Prod.fst),
            Event.beginPolicy policyHandler.id tx (gs.map Prod.fst)]) ∨
    (∃ d vhs phs built tr0,
      handler.beginValueProposals tx (gs.map Prod.fst) = Except.ok (d, vhs) ∧
      policyHandler.beginPolicyProposals tx (gs.map Prod.fst) = Except.ok phs ∧
      vhs.length = gs.length ∧ phs.length = gs.length ∧
      proposeSubGroups tx name gs vhs phs = (Sum.inl (built, e), tr0) ∧
      tr = Event.beginValue handler.id tx (gs.map Prod.fst) ::
           Event.beginPolicy policyHandler.id tx (gs.map Prod.fst) ::
           (tr0 ++ (ConfigResult.mk tx handler policyHandler built).rollbackRun)) ∨
    (∃ d vhs phs subs tr0 tr1,
      handler.beginValueProposals tx (gs.map Prod.fst) = Except.ok (d, vhs) ∧
      policyHandler.beginPolicyProposals tx (gs.map Prod.fst) = Except.ok phs ∧
      vhs.length = gs.length ∧ phs.length = gs.length ∧
      proposeSubGroups tx name gs vhs phs = (Sum.inr subs, tr0) ∧
      deserializeValues d vs = (Except.error e, tr1) ∧
      tr = Event.beginValue handler.id tx (gs.map Prod.fst) ::
           Event.beginPolicy policyHandler.id tx (gs.map Prod.fst) ::
           (tr0 ++ tr1 ++ (ConfigResult.mk tx handler policyHandler subs).rollbackRun)) ∨
    (∃ d vhs phs subs cache tr0 tr1 tr2,
      handler.beginValueProposals tx (gs.map Prod.fst) = Except.ok (d, vhs) ∧
      policyHandler.beginPolicyProposals tx (gs.map Prod.fst) = Except.ok phs ∧
      vhs.length = gs.length ∧ phs.length = gs.length ∧
      proposeSubGroups tx name gs vhs phs = (Sum.inr subs, tr0) ∧
      deserializeValues d vs = (Except.ok cache, tr1) ∧
      proposePolicies policyHandler tx ps = (Except.error e, tr2) ∧
      tr = Event.beginValue handler.id tx (gs.map Prod.fst) ::
           Event.beginPolicy policyHandler.id tx (gs.map Prod.fst) ::
           (tr0 ++ tr1 ++ tr2 ++ (ConfigResult.mk tx handler policyHandler subs).rollbackRun)) ∨
    (∃ d vhs phs subs cache tr0 tr1 tr2 tr3,
      handler.beginValueProposals tx (gs.map Prod.fst) = Except.ok (d, vhs) ∧
      policyHandler.beginPolicyProposals tx (gs.map Prod.fst) = Except.ok phs ∧
      vhs.length = gs.length ∧ phs.length = gs.length ∧
      proposeSubGroups tx name gs vhs phs = (Sum.inr subs, tr0) ∧
      deserializeValues d vs = (Except.ok cache, tr1) ∧
      proposePolicies policyHandler tx ps = (Except.ok (), tr2) ∧
      (ConfigResult.mk tx handler policyHandler subs).preCommitRun = (Except.error e, tr3) ∧
      tr = Event.beginValue handler.id tx (gs.map Prod.fst) ::
           Event.beginPolicy policyHandler.id tx (gs.map Prod.fst) ::
           (tr0 ++ tr1 ++ tr2 ++ tr3 ++
             (ConfigResult.mk tx handler policyHandler subs).rollbackRun)) := by
  rw [proposeGroup] at h
  rcases hbv : handler.beginValueProposals tx (List.map Prod.fst gs) with e1 | ⟨d, vhs⟩ <;>
    simp only [hbv] at h
  · simp only [Prod.mk.injEq, Except.error.injEq] at h
    obtain ⟨rfl, rfl⟩ := h
    exact Or.inl ⟨rfl, rfl⟩
  · rcases hbp : policyHandler.beginPolicyProposals tx (List.map Prod.fst gs) with e2 | phs <;>
      simp only [hbp] at h
    · simp only [Prod.mk.injEq, Except.error.injEq] at h
      obtain ⟨rfl, rfl⟩ := h
      exact Or.inr (Or.inl ⟨d, vhs, rfl, rfl, rfl⟩)
    · by_cases hlen :
        vhs.length ≠ (List.map Prod.fst gs).length ∨ phs.length ≠ (List.map Prod.fst gs).length
      · rw [if_pos hlen] at h
        simp only [Prod.mk.injEq, Except.error.injEq] at h
        obtain ⟨rfl, rfl⟩ := h
        refine Or.inr (Or.inr (Or.inl ⟨d, vhs, phs, rfl, rfl, ?_, ?_, rfl⟩))
        · simpa only [List.length_map] using hlen
        · simp only [List.length_map]
      · rw [if_neg hlen] at h
        push_neg at hlen
        obtain ⟨hl1, hl2⟩ := hlen
        simp only [List.length_map] at hl1 hl2
        rcases hsg : proposeSubGroups tx name gs vhs phs with ⟨⟨built, e3⟩ | subs, tr0⟩ <;>
          simp only [hsg] at h
        · simp only [Prod.mk.injEq, Except.error.injEq] at h
          obtain ⟨rfl, rfl⟩ := h
          exact Or.inr (Or.inr (Or.inr (Or.inl ⟨d, vhs, phs, built, tr0,
            rfl, rfl, hl1, hl2, hsg, rfl⟩)))
        · rcases hde : deserializeValues d vs with ⟨e4 | cache, tr1⟩ <;> simp only [hde] at h
          · simp only [Prod.mk.injEq, Except.error.injEq] at h
            obtain ⟨rfl, rfl⟩ := h
            exact Or.inr (Or.inr (Or.inr (Or.inr (Or.inl ⟨d, vhs, phs, subs, tr0, tr1,
              rfl, rfl, hl1, hl2, hsg, hde, rfl⟩))))
          · rcases hpr : proposePolicies policyHandler tx ps with ⟨e5 | ⟨⟩, tr2⟩ <;>
              simp only [hpr] at h
            · simp only [Prod.mk.injEq, Except.error.injEq] at h
              obtain ⟨rfl, rfl⟩ := h
              exact Or.inr (Or.inr (Or.inr (Or.inr (Or.inr (Or.inl ⟨d, vhs, phs, subs, cache,
                tr0, tr1, tr2, rfl, rfl, hl1, hl2, hsg, hde, rfl, rfl⟩)))))
            · rcases hpcr :
                (ConfigResult.mk tx handler policyHandler subs).preCommitRun with
                ⟨e6 | ⟨⟩, tr3⟩ <;> simp only [hpcr] at h
              · simp only [Prod.mk.injEq, Except.error.injEq] at h
                obtain ⟨rfl, rfl⟩ := h
                exact Or.inr (Or.inr (Or.inr (Or.inr (Or.inr (Or.inr ⟨d, vhs, phs, subs, cache,
                  tr0, tr1, tr2, tr3, rfl, rfl, hl1, hl2, hsg, hde, rfl, hpcr, rfl⟩)))))
              · simp only [Prod.mk.injEq] at h
                exact Except.noConfusion h.1

theorem proposeSubGroups_error_src (tx : ConfigGroup) (name : String) :
    ∀ (l : List (String × ConfigGroup)) (vhs : List ValueProposer) (phs : List PolicyProposer)
      (built : List ConfigResult) (e : GoError) (tr0 : List Event),
      proposeSubGroups tx name l vhs phs = (Sum.inl (built, e), tr0) →
      ∃ (nm : String) (sg : ConfigGroup) (vh : ValueProposer) (ph : PolicyProposer)
        (trc : List Event),
        proposeGroup tx (name ++ "/" ++ nm) sg vh ph = (Except.error e, trc)
  | [], _, _, built, e, tr0 => by
    intro h
    simp only [proposeSubGroups, Prod.mk.injEq] at h
    exact Sum.noConfusion h.1
  | (subName, subGroup) :: rest, [], _, built, e, tr0 => by
    intro h
    simp only [proposeSubGroups, Prod.mk.injEq] at h
    exact Sum.noConfusion h.1
  | (subName, subGroup) :: rest, vh :: vhs, [], built, e, tr0 => by
    intro h
    simp only [proposeSubGroups, Prod.mk.injEq] at h
    exact Sum.noConfusion h.1
  | (subName, subGroup) :: rest, vh :: vhs, ph :: phs, built, e, tr0 => by
    intro h
    rw [proposeSubGroups] at h
    rcases hpg : proposeGroup tx (name ++ "/" ++ subName) subGroup vh ph with ⟨e1 | r, tr⟩ <;>
      simp only [hpg] at h
    · simp only [Prod.mk.injEq, Sum.inl.injEq] at h
      obtain ⟨⟨_, he⟩, _⟩ := h
      exact ⟨subName, subGroup, vh, ph, tr, he ▸ hpg⟩
    · rcases hps : proposeSubGroups tx name rest vhs phs with ⟨⟨built2, e2⟩ | rs2, tr2⟩ <;>
        simp only [hps] at h
      · simp only [Prod.mk.injEq, Sum.inl.injEq] at h
        obtain ⟨⟨_, he⟩, _⟩ := h
        exact he ▸ proposeSubGroups_error_src tx name rest vhs phs built2 e2 tr2 hps
      · simp only [Prod.mk.injEq] at h
        exact Sum.noConfusion h.1

/-- C9: Error propagation (corrected) — when a child's proposal fails after a
node's `Begin…` calls succeeded with matching handler counts, `proposeGroup`
returns the error value UNCHANGED — it is not wrapped with path context; the
group path feeds only a debug log — immediately after rolling back the
sub-results it had already built together with its own two handlers; and the
error it returns is exactly the error some child's recursive `proposeGroup`
call produced. -/
theorem proposeGroup_error_propagation (tx : ConfigGroup) (name : String)
    (gs : List (String × ConfigGroup)) (vs ps : List (String × String))
    (handler : ValueProposer) (policyHandler : PolicyProposer)
    (d : ValueDeserializer) (vhs : List ValueProposer) (phs : List PolicyProposer)
    (built : List ConfigResult) (e : GoError) (tr0 : List Event)
    (hbv : handler.beginValueProposals tx (gs.map Prod.fst) = Except.ok (d, vhs))
    (hbp : policyHandler.beginPolicyProposals tx (gs.map Prod.fst) = Except.ok phs)
    (hl1 : vhs.length = gs.length) (hl2 : phs.length = gs.length)
    (hsub : proposeSubGroups tx name gs vhs phs = (Sum.inl (built, e), tr0)) :
    proposeGroup tx name (ConfigGroup.mk gs vs ps) handler policyHandler =
      (Except.error e,
        Event.beginValue handler.id tx (gs.map Prod.fst) ::
        Event.beginPolicy policyHandler.id tx (gs.map Prod.fst) ::
        (tr0 ++ (ConfigResult.mk tx handler policyHandler built).rollbackRun)) ∧
    ∃ (nm : String) (sg : ConfigGroup) (vh : ValueProposer) (ph : PolicyProposer)
      (trc : List Event),
      proposeGroup tx (name ++ "/" ++ nm) sg vh ph = (Except.error e, trc) := by
  constructor
  · rw [proposeGroup]
    simp only [hbv, hbp, List.length_map]
    rw [if_neg (by simp [hl1, hl2])]
    simp only [hsub]
  · exact proposeSubGroups_error_src tx name gs vhs phs built e tr0 hsub

/-- C9 witness: a child whose `BeginValueProposals` fails with `"boom"`; the
parent returns that very error after rolling back itself, and the error is
the failing child's own. -/
theorem proposeGroup_error_propagation_witness :
    proposeGroup leafGroup "" (ConfigGroup.mk [(RootGroupKey, leafGroup)] [] [])
      (nodeVP 1 [failBeginVP 2 "boom"]) (nodePP 3 [leafPP 4]) =
      (Except.error (GoError.handlerError "boom"),
        Event.beginValue 1 leafGroup [RootGroupKey] ::
        Event.beginPolicy 3 leafGroup [RootGroupKey] ::
        ([Event.beginValue 2 leafGroup []] ++
          (ConfigResult.mk leafGroup (nodeVP 1 [failBeginVP 2 "boom"])
            (nodePP 3 [leafPP 4]) []).rollbackRun)) ∧
    ∃ (nm : String) (sg : ConfigGroup) (vh : ValueProposer) (ph : PolicyProposer)
      (trc : List Event),
      proposeGroup leafGroup ("" ++ "/" ++ nm) sg vh ph =
        (Except.error (GoError.handlerError "boom"), trc) :=
  proposeGroup_error_propagation leafGroup "" [(RootGroupKey, leafGroup)] [] []
    (nodeVP 1 [failBeginVP 2 "boom"]) (nodePP 3 [leafPP 4]) okDeser
    [failBeginVP 2 "boom"] [leafPP 4] [] (GoError.handlerError "boom")
    [Event.beginValue 2 leafGroup []] rfl rfl rfl rfl rfl

/-- C9 counterexample: the claim as stated is false — the error `processConfig`
returns on a deep failure is the failing handler's raw error value, with no
path context naming the failed group: the failing child sits at path
`"/Channel"` yet the error is exactly `handlerError "boom"`, whose message
contains no path separator (character code 47) and so names no group. -/
theorem processConfig_error_not_wrapped :
    (processConfig cmFailBegin leafGroup).1 = Except.error (GoError.handlerError "boom") ∧
    "boom".data.contains (Char.ofNat 47) = false :=
  ⟨rfl, by decide⟩

/-- C10: after both `Begin…` calls of a node succeeded with matching counts,
any later failure (a child's recursion, a value deserialization, a
`ProposePolicy` call, or the pre-commit cascade) makes `proposeGroup` roll
back the in-progress result — whose rollback calls `RollbackProposals` once
on the node's own value handler and once on its own policy handler, after its
built children — and return a nil result with the error, even when none of
the node's own values or policies were ever proposed. -/
theorem proposeGroup_failure_self_rollback (tx : ConfigGroup) (name : String)
    (gs : List (String × ConfigGroup)) (vs ps : List (String × String))
    (handler : ValueProposer) (policyHandler : PolicyProposer)
    (d : ValueDeserializer) (vhs : List ValueProposer) (phs : List PolicyProposer) (e : GoError)
    (hbv : handler.beginValueProposals tx (gs.map Prod.fst) = Except.ok (d, vhs))
    (hbp : policyHandler.beginPolicyProposals tx (gs.map Prod.fst) = Except.ok phs)
    (hl1 : vhs.length = gs.length) (hl2 : phs.length = gs.length)
    (herr : (proposeGroup tx name (ConfigGroup.mk gs vs ps) handler policyHandler).1 =
      Except.error e) :
    ∃ (built : List ConfigResult) (tr0 : List Event),
      proposeGroup tx name (ConfigGroup.mk gs vs ps) handler policyHandler =
        (Except.error e,
          Event.beginValue handler.id tx (gs.map Prod.fst) ::
          Event.beginPolicy policyHandler.id tx (gs.map Prod.fst) ::
          (tr0 ++ (ConfigResult.mk tx handler policyHandler built).rollbackRun)) ∧
      (ConfigResult.mk tx handler policyHandler built).rollbackRun =
        rollbackList built ++
          [Event.rollbackEv HKind.value handler.id tx,
           Event.rollbackEv HKind.policy policyHandler.id tx] := by
  rcases hrun : proposeGroup tx name (ConfigGroup.mk gs vs ps) handler policyHandler with ⟨res, tr⟩
  rw [hrun] at herr
  simp only at herr
  subst herr
  rcases proposeGroup_error_inv tx name gs vs ps handler policyHandler e tr hrun with
    hc | hc | hc | hc | hc | hc | hc
  · rw [hc.1] at hbv
    exact Except.noConfusion hbv
  · obtain ⟨d', vhs', _, hbp', _⟩ := hc
    rw [hbp'] at hbp
    exact Except.noConfusion hbp
  · obtain ⟨d', vhs', phs', hbv', hbp', hlen, _, _⟩ := hc
    rw [hbv'] at hbv
    rw [hbp'] at hbp
    simp only [Except.ok.injEq, Prod.mk.injEq] at hbv hbp
    obtain ⟨_, rfl⟩ := hbv
    subst hbp
    rcases hlen with hl | hl
    · exact absurd hl1 hl
    · exact absurd hl2 hl
  · obtain ⟨d', vhs', phs', built, tr0, hbv', hbp', _, _, _, htr⟩ := hc
    subst htr
    exact ⟨built, tr0, rfl, rfl⟩
  · obtain ⟨d', vhs', phs', subs, tr0, tr1, hbv', hbp', _, _, _, _, htr⟩ := hc
    subst htr
    exact ⟨subs, tr0 ++ tr1, rfl, rfl⟩
  · obtain ⟨d', vhs', phs', subs, cache, tr0, tr1, tr2, hbv', hbp', _, _, _, _, _, htr⟩ := hc
    subst htr
    exact ⟨subs, tr0 ++ tr1 ++ tr2, rfl, rfl⟩
  · obtain ⟨d', vhs', phs', subs, cache, tr0, tr1, tr2, tr3, hbv', hbp', _, _, _, _, _, _, htr⟩ := hc
    subst htr
    exact ⟨subs, tr0 ++ tr1 ++ tr2 ++ tr3, rfl, rfl⟩

/-- C10 witness: the child's `BeginValueProposals` fails before any of the
parent's own values or policies were proposed; the parent still rolls back
its own two handlers, once each, after its (empty) list of built children. -/
theorem proposeGroup_failure_self_rollback_witness :
    ∃ (built : List ConfigResult) (tr0 : List Event),
      proposeGroup leafGroup "" (ConfigGroup.mk [(RootGroupKey, leafGroup)] [] [])
        (nodeVP 1 [failBeginVP 2 "boom"]) (nodePP 3 [leafPP 4]) =
        (Except.error (GoError.handlerError "boom"),
          Event.beginValue 1 leafGroup [RootGroupKey] ::
          Event.beginPolicy 3 leafGroup [RootGroupKey] ::
          (tr0 ++ (ConfigResult.mk leafGroup (nodeVP 1 [failBeginVP 2 "boom"])
            (nodePP 3 [leafPP 4]) built).rollbackRun)) ∧
      (ConfigResult.mk leafGroup (nodeVP 1 [failBeginVP 2 "boom"])
        (nodePP 3 [leafPP 4]) built).rollbackRun =
        rollbackList built ++
          [Event.rollbackEv HKind.value 1 leafGroup,
           Event.rollbackEv HKind.policy 3 leafGroup] :=
  proposeGroup_failure_self_rollback leafGroup "" [(RootGroupKey, leafGroup)] [] []
    (nodeVP 1 [failBeginVP 2 "boom"]) (nodePP 3 [leafPP 4]) okDeser
    [failBeginVP 2 "boom"] [leafPP 4] (GoError.handlerError "boom") rfl rfl rfl rfl rfl

/-- C2: Partial-failure cleanup — at a node with sibling subgroups A, B, C
where A and B's recursive proposals succeed and C's fails, `proposeGroup`
rolls back the results of the already-succeeded siblings A and B
(children-before-self, via the in-progress result, which also rolls back the
node's own two handlers), performs no rollback of the failed child C from the
parent (the trace after C's own trace is exactly the rollback of A, B and the
node itself), invokes `CommitProposals` on nothing, and propagates C's error. -/
theorem proposeGroup_sibling_cleanup (tx : ConfigGroup) (name : String)
    (na nb nc : String) (ga gb gc : ConfigGroup) (vsv psv : List (String × String))
    (handler : ValueProposer) (policyHandler : PolicyProposer) (d : ValueDeserializer)
    (va vb vc : ValueProposer) (pa pb pc : PolicyProposer)
    (ra rb : ConfigResult) (e : GoError) (trA trB trC : List Event)
    (hbv : handler.beginValueProposals tx [na, nb, nc] = Except.ok (d, [va, vb, vc]))
    (hbp : policyHandler.beginPolicyProposals tx [na, nb, nc] = Except.ok [pa, pb, pc])
    (hA : proposeGroup tx (name ++ "/" ++ na) ga va pa = (Except.ok ra, trA))
    (hB : proposeGroup tx (name ++ "/" ++ nb) gb vb pb = (Except.ok rb, trB))
    (hC : proposeGroup tx (name ++ "/" ++ nc) gc vc pc = (Except.error e, trC)) :
    proposeGroup tx name (ConfigGroup.mk [(na, ga), (nb, gb), (nc, gc)] vsv psv)
        handler policyHandler =
      (Except.error e,
        Event.beginValue handler.id tx [na, nb, nc] ::
        Event.beginPolicy policyHandler.id tx [na, nb, nc] ::
        ((trA ++ (trB ++ trC)) ++
          (ConfigResult.mk tx handler policyHandler [ra, rb]).rollbackRun)) ∧
    (ConfigResult.mk tx handler policyHandler [ra, rb]).rollbackRun =
      ra.rollbackRun ++ rb.rollbackRun ++
        [Event.rollbackEv HKind.value handler.id tx,
         Event.rollbackEv HKind.policy policyHandler.id tx] ∧
    NoCommit (proposeGroup tx name (ConfigGroup.mk [(na, ga), (nb, gb), (nc, gc)] vsv psv)
      handler policyHandler).2 := by
  refine ⟨?_, ?_, proposeGroup_noCommit tx name _ handler policyHandler⟩
  · rw [proposeGroup]
    simp only [List.map_cons, List.map_nil]
    simp only [hbv, hbp]
    rw [if_neg (by simp)]
    simp only [proposeSubGroups, hA, hB, hC]
  · simp [ConfigResult.rollbackRun, rollbackList]

/-- C2 witness: three leaf siblings, the third failing in `PreCommit`; the
parent propagates the third child's error. -/
theorem proposeGroup_sibling_cleanup_witness :
    (proposeGroup leafGroup ""
      (ConfigGroup.mk [("A", leafGroup), ("B", leafGroup), ("C", leafGroup)] [] [])
      (nodeVP 1 [leafVP 2, leafVP 3, failPreVP 4 "boom"])
      (nodePP 5 [leafPP 6, leafPP 7, leafPP 8])).1 =
      Except.error (GoError.handlerError "boom") :=
  congrArg Prod.fst
    (proposeGroup_sibling_cleanup leafGroup "" "A" "B" "C" leafGroup leafGroup leafGroup [] []
      (nodeVP 1 [leafVP 2, leafVP 3, failPreVP 4 "boom"])
      (nodePP 5 [leafPP 6, leafPP 7, leafPP 8]) okDeser
      (leafVP 2) (leafVP 3) (failPreVP 4 "boom") (leafPP 6) (leafPP 7) (leafPP 8)
      (ConfigResult.mk leafGroup (leafVP 2) (leafPP 6) [])
      (ConfigResult.mk leafGroup (leafVP 3) (leafPP 7) [])
      (GoError.handlerError "boom")
      [Event.beginValue 2 leafGroup [], Event.beginPolicy 6 leafGroup [],
       Event.preCommitEv 2 leafGroup]
      [Event.beginValue 3 leafGroup [], Event.beginPolicy 7 leafGroup [],
       Event.preCommitEv 3 leafGroup]
      [Event.beginValue 4 leafGroup [], Event.beginPolicy 8 leafGroup [],
       Event.preCommitEv 4 leafGroup, Event.rollbackEv HKind.value 4 leafGroup,
       Event.rollbackEv HKind.policy 8 leafGroup]
      rfl rfl rfl rfl rfl).1

theorem commitList_split (c : ConfigResult) :
    ∀ (subs : List ConfigResult), c ∈ subs →
      ∃ A B, commitList subs = A ++ c.commitRun ++ B
  | [], hc => absurd hc (by simp)
  | x :: rest, hc => by
    rcases List.mem_cons.mp hc with rfl | hc
    · exact ⟨[], commitList rest, by simp [commitList]⟩
    · obtain ⟨A, B, hAB⟩ := commitList_split c rest hc
      exact ⟨x.commitRun ++ A, B, by simp [commitList, hAB, List.append_assoc]⟩

theorem rollbackList_split (c : ConfigResult) :
    ∀ (subs : List ConfigResult), c ∈ subs →
      ∃ A B, rollbackList subs = A ++ c.rollbackRun ++ B
  | [], hc => absurd hc (by simp)
  | x :: rest, hc => by
    rcases List.mem_cons.mp hc with rfl | hc
    · exact ⟨[], rollbackList rest, by simp [rollbackList]⟩
    · obtain ⟨A, B, hAB⟩ := rollbackList_split c rest hc
      exact ⟨x.rollbackRun ++ A, B, by simp [rollbackList, hAB, List.append_assoc]⟩

theorem commit_post_order {r s : ConfigResult} (hsub : Subtree s r) :
    ∀ c ∈ s.subResults,
      ∃ l1 l2 l3, r.commitRun = l1 ++ c.commitRun ++ l2 ++
        [Event.commitEv HKind.value s.handler.id s.tx,
         Event.commitEv HKind.policy s.policyHandler.id s.tx] ++ l3 := by
  induction hsub with
  | refl =>
    intro c hc
    obtain ⟨A, B, hAB⟩ := commitList_split c s.subResults hc
    rcases s with ⟨tx, h, p, subs⟩
    simp only [ConfigResult.subResults] at hAB
    refine ⟨A, B, [], ?_⟩
    simp [ConfigResult.commitRun, ConfigResult.handler, ConfigResult.policyHandler,
      ConfigResult.tx, hAB, List.append_assoc]
  | step hc0 hsub ih =>
    rename_i c0 r0
    intro c hc
    obtain ⟨l1, l2, l3, h1⟩ := ih c hc
    obtain ⟨A, B, hAB⟩ := commitList_split c0 r0.subResults hc0
    rcases r0 with ⟨tx, h, p, subs⟩
    simp only [ConfigResult.subResults] at hAB
    refine ⟨A ++ l1, l2, l3 ++ B ++
      [Event.commitEv HKind.value h.id tx, Event.commitEv HKind.policy p.id tx], ?_⟩
    simp [ConfigResult.commitRun, hAB, h1, List.append_assoc]

theorem rollback_post_order {r s : ConfigResult} (hsub : Subtree s r) :
    ∀ c ∈ s.subResults,
      ∃ l1 l2 l3, r.rollbackRun = l1 ++ c.rollbackRun ++ l2 ++
        [Event.rollbackEv HKind.value s.handler.id s.tx,
         Event.rollbackEv HKind.policy s.policyHandler.id s.tx] ++ l3 := by
  induction hsub with
  | refl =>
    intro c hc
    obtain ⟨A, B, hAB⟩ := rollbackList_split c s.subResults hc
    rcases s with ⟨tx, h, p, subs⟩
    simp only [ConfigResult.subResults] at hAB
    refine ⟨A, B, [], ?_⟩
    simp [ConfigResult.rollbackRun, ConfigResult.handler, ConfigResult.policyHandler,
      ConfigResult.tx, hAB, List.append_assoc]
  | step hc0 hsub ih =>
    rename_i c0 r0
    intro c hc
    obtain ⟨l1, l2, l3, h1⟩ := ih c hc
    obtain ⟨A, B, hAB⟩ := rollbackList_split c0 r0.subResults hc0
    rcases r0 with ⟨tx, h, p, subs⟩
    simp only [ConfigResult.subResults] at hAB
    refine ⟨A ++ l1, l2, l3 ++ B ++
      [Event.rollbackEv HKind.value h.id tx, Event.rollbackEv HKind.policy p.id tx], ?_⟩
    simp [ConfigResult.rollbackRun, hAB, h1, List.append_assoc]

/-- C6: Post-order cascade — on a successfully built result tree, `commit`
invokes every node of a child's subtree strictly before the parent's own
`CommitProposals` pair on its value and policy handlers, and on a separately
built, never-committed tree, `rollback` does the same with
`RollbackProposals`: for every node `s` of the tree and every child `c` of
`s`, the child's whole cascade block appears in the trace strictly before
`s`'s own pair of events. -/
theorem configResult_post_order_cascade
    (tx : ConfigGroup) (name : String) (g : ConfigGroup)
    (handler : ValueProposer) (policyHandler : PolicyProposer)
    (tx' : ConfigGroup) (name' : String) (g' : ConfigGroup)
    (handler' : ValueProposer) (policyHandler' : PolicyProposer)
    (r r' : ConfigResult) (tr tr' : List Event)
    (_hb : proposeGroup tx name g handler policyHandler = (Except.ok r, tr))
    (_hb' : proposeGroup tx' name' g' handler' policyHandler' = (Except.ok r', tr')) :
    (∀ s, Subtree s r → ∀ c ∈ s.subResults,
      ∃ l1 l2 l3, r.commitRun = l1 ++ c.commitRun ++ l2 ++
        [Event.commitEv HKind.value s.handler.id s.tx,
         Event.commitEv HKind.policy s.policyHandler.id s.tx] ++ l3) ∧
    (∀ s, Subtree s r' → ∀ c ∈ s.subResults,
      ∃ l1 l2 l3, r'.rollbackRun = l1 ++ c.rollbackRun ++ l2 ++
        [Event.rollbackEv HKind.value s.handler.id s.tx,
         Event.rollbackEv HKind.policy s.policyHandler.id s.tx] ++ l3) :=
  ⟨fun _ hs c hc => commit_post_order hs c hc,
   fun _ hs c hc => rollback_post_order hs c hc⟩

/-- C6 witness: a concrete two-node build; the child's commit (respectively
rollback, on a second build) events precede the root's own pair. -/
theorem configResult_post_order_cascade_witness :
    (∃ l1 l2 l3,
      (ConfigResult.mk leafGroup (nodeVP 1 [leafVP 2]) (nodePP 3 [leafPP 4])
        [ConfigResult.mk leafGroup (leafVP 2) (leafPP 4) []]).commitRun =
        l1 ++ (ConfigResult.mk leafGroup (leafVP 2) (leafPP 4) []).commitRun ++ l2 ++
          [Event.commitEv HKind.value 1 leafGroup,
           Event.commitEv HKind.policy 3 leafGroup] ++ l3) ∧
    (∃ l1 l2 l3,
      (ConfigResult.mk leafGroup (nodeVP 1 [leafVP 2]) (nodePP 3 [leafPP 4])
        [ConfigResult.mk leafGroup (leafVP 2) (leafPP 4) []]).rollbackRun =
        l1 ++ (ConfigResult.mk leafGroup (leafVP 2) (leafPP 4) []).rollbackRun ++ l2 ++
          [Event.rollbackEv HKind.value 1 leafGroup,
           Event.rollbackEv HKind.policy 3 leafGroup] ++ l3) :=
  ⟨(configResult_post_order_cascade leafGroup "" (ConfigGroup.mk [("A", leafGroup)] [] [])
      (nodeVP 1 [leafVP 2]) (nodePP 3 [leafPP 4])
      leafGroup "" (ConfigGroup.mk [("A", leafGroup)] [] [])
      (nodeVP 1 [leafVP 2]) (nodePP 3 [leafPP 4]) _ _ _ _ rfl rfl).1
      _ (Subtree.refl _) (ConfigResult.mk leafGroup (leafVP 2) (leafPP 4) [])
      (List.Mem.head _),
   (configResult_post_order_cascade leafGroup "" (ConfigGroup.mk [("A", leafGroup)] [] [])
      (nodeVP 1 [leafVP 2]) (nodePP 3 [leafPP 4])
      leafGroup "" (ConfigGroup.mk [("A", leafGroup)] [] [])
      (nodeVP 1 [leafVP 2]) (nodePP 3 [leafPP 4]) _ _ _ _ rfl rfl).2
      _ (Subtree.refl _) (ConfigResult.mk leafGroup (leafVP 2) (leafPP 4) [])
      (List.Mem.head _)⟩

mutual

theorem mirrors_nodeCount : ∀ {r : ConfigResult} {g : ConfigGroup},
    Mirrors r g → r.nodeCount = g.nodeCount
  | _, _, Mirrors.mk tx h p subs gs vs ps hlist => by
    simp only [ConfigResult.nodeCount, ConfigGroup.nodeCount]
    rw [mirrorsList_nodeCount hlist]

theorem mirrorsList_nodeCount : ∀ {rs : List ConfigResult}
    {gs : List (String × ConfigGroup)},
    MirrorsList rs gs → resultNodeCountList rs = nodeCountList gs
  | _, _, MirrorsList.nil => rfl
  | _, _, MirrorsList.cons r (nm, cg) rs gs hm hl => by
    simp only [resultNodeCountList, nodeCountList]
    rw [mirrors_nodeCount hm, mirrorsList_nodeCount hl]

end

mutual

theorem preCommitRun_count : ∀ (r : ConfigResult),
    (r.preCommitRun).1.isOk = true →
    List.countP Event.isPreCommit (r.preCommitRun).2 = r.nodeCount
  | ConfigResult.mk tx h p subs => by
    intro hok
    have hl := preCommitList_count subs
    simp only [ConfigResult.preCommitRun] at hok ⊢
    rcases hpl : preCommitList subs with ⟨res, tr⟩
    rw [hpl] at hl
    simp only [hpl] at hok ⊢
    rcases res with e1 | u
    · simp [Except.isOk, Except.toBool] at hok
    · rcases hc : h.preCommit tx with e2 | u2 <;> simp only [hc] at hok ⊢
      · simp [Except.isOk, Except.toBool] at hok
      · have := hl rfl
        simp only [ConfigResult.nodeCount, List.countP_append] at this ⊢
        simp [this, Event.isPreCommit, List.countP_cons]
        omega

theorem preCommitList_count : ∀ (rs : List ConfigResult),
    (preCommitList rs).1.isOk = true →
    List.countP Event.isPreCommit (preCommitList rs).2 = resultNodeCountList rs
  | [] => by intro hok; rfl
  | r :: rs => by
    intro hok
    have hr := preCommitRun_count r
    have hrs := preCommitList_count rs
    simp only [preCommitList] at hok ⊢
    rcases hpr : r.preCommitRun with ⟨res, tr⟩
    rw [hpr] at hr
    simp only [hpr] at hok ⊢
    rcases res with e1 | u
    · simp [Except.isOk, Except.toBool] at hok
    · rcases hpl : preCommitList rs with ⟨res2, tr2⟩
      rw [hpl] at hrs
      simp only [hpl] at hok ⊢
      simp only [resultNodeCountList, List.countP_append]
      rw [hr rfl, hrs hok]

end

theorem deserializeValues_count (d : ValueDeserializer) :
    ∀ (vs : List (String × String)),
      List.countP Event.isPreCommit (deserializeValues d vs).2 = 0
  | [] => rfl
  | (key, raw) :: rest => by
    have hrest := deserializeValues_count d rest
    simp only [deserializeValues]
    rcases hd : d.deserialize key raw with e1 | msg
    · simp [Event.isPreCommit]
    · rcases hdr : deserializeValues d rest with ⟨res, tr⟩
      rw [hdr] at hrest
      rcases res with e2 | cache <;>
        simp [Event.isPreCommit, List.countP_cons, hrest]

theorem proposePolicies_count (p : PolicyProposer) (tx : ConfigGroup) :
    ∀ (ps : List (String × String)),
      List.countP Event.isPreCommit (proposePolicies p tx ps).2 = 0
  | [] => rfl
  | (key, raw) :: rest => by
    have hrest := proposePolicies_count p tx rest
    simp only [proposePolicies]
    rcases hp : p.proposePolicy tx key raw with e1 | u
    · simp [Event.isPreCommit]
    · rcases hpr : proposePolicies p tx rest with ⟨res, tr⟩
      rw [hpr] at hrest
      simp [Event.isPreCommit, List.countP_cons, hrest]

mutual

theorem proposeGroup_ok_shape (tx : ConfigGroup) (name : String) :
    ∀ (g : ConfigGroup) (handler : ValueProposer) (policyHandler : PolicyProposer)
      (r : ConfigResult) (tr : List Event),
      proposeGroup tx name g handler policyHandler = (Except.ok r, tr) →
      Mirrors r g ∧ List.countP Event.isPreCommit tr = g.pcWeight
  | ConfigGroup.mk gs vs ps, handler, policyHandler, r, tr => by
    intro h
    rw [proposeGroup] at h
    rcases hbv : handler.beginValueProposals tx (List.map Prod.fst gs) with e1 | ⟨d, vhs⟩ <;>
      simp only [hbv] at h
    · simp only [Prod.mk.injEq] at h
      exact Except.noConfusion h.1
    · rcases hbp : policyHandler.beginPolicyProposals tx (List.map Prod.fst gs) with e2 | phs <;>
        simp only [hbp] at h
      · simp only [Prod.mk.injEq] at h
        exact Except.noConfusion h.1
      · by_cases hlen :
          vhs.length ≠ (List.map Prod.fst gs).length ∨ phs.length ≠ (List.map Prod.fst gs).length
        · rw [if_pos hlen] at h
          simp only [Prod.mk.injEq] at h
          exact Except.noConfusion h.1
        · rw [if_neg hlen] at h
          push_neg at hlen
          obtain ⟨hl1, hl2⟩ := hlen
          simp only [List.length_map] at hl1 hl2
          rcases hsg : proposeSubGroups tx name gs vhs phs with ⟨⟨built, e3⟩ | subs, trC⟩ <;>
            simp only [hsg] at h
          · simp only [Prod.mk.injEq] at h
            exact Except.noConfusion h.1
          · obtain ⟨hmir, hcount⟩ :=
              proposeSubGroups_ok_shape tx name gs vhs phs subs trC hl1 hl2 hsg
            rcases hde : deserializeValues d vs with ⟨e4 | cache, trV⟩ <;> simp only [hde] at h
            · simp only [Prod.mk.injEq] at h
              exact Except.noConfusion h.1
            · rcases hpr : proposePolicies policyHandler tx ps with ⟨e5 | u, trP⟩ <;>
                simp only [hpr] at h
              · simp only [Prod.mk.injEq] at h
                exact Except.noConfusion h.1
              · rcases hpcr :
                  (ConfigResult.mk tx handler policyHandler subs).preCommitRun with
                  ⟨e6 | u2, trPC⟩ <;> simp only [hpcr] at h
                · simp only [Prod.mk.injEq] at h
                  exact Except.noConfusion h.1
                · simp only [Prod.mk.injEq, Except.ok.injEq] at h
                  obtain ⟨rfl, rfl⟩ := h
                  constructor
                  · exact Mirrors.mk tx handler policyHandler subs gs vs ps hmir
                  · have hpc := preCommitRun_count
                      (ConfigResult.mk tx handler policyHandler subs) (by rw [hpcr]; rfl)
                    rw [hpcr] at hpc
                    simp only at hpc
                    have hnc : (ConfigResult.mk tx handler policyHandler subs).nodeCount =
                        1 + nodeCountList gs := by
                      simp only [ConfigResult.nodeCount]
                      rw [mirrorsList_nodeCount hmir]
                    simp only [List.countP_cons, List.countP_append, Event.isPreCommit,
                      ConfigGroup.pcWeight]
                    have hv0 : List.countP Event.isPreCommit trV = 0 := by
                      have hq := deserializeValues_count d vs
                      rw [hde] at hq
                      exact hq
                    have hp0 : List.countP Event.isPreCommit trP = 0 := by
                      have hq := proposePolicies_count policyHandler tx ps
                      rw [hpr] at hq
                      exact hq
                    rw [hcount, hv0, hp0, hpc, hnc]
                    simp

theorem proposeSubGroups_ok_shape (tx : ConfigGroup) (name : String) :
    ∀ (l : List (String × ConfigGroup)) (vhs : List ValueProposer) (phs : List PolicyProposer)
      (rs : List ConfigResult) (tr : List Event),
      vhs.length = l.length → phs.length = l.length →
      proposeSubGroups tx name l vhs phs = (Sum.inr rs, tr) →
      MirrorsList rs l ∧ List.countP Event.isPreCommit tr = pcWeightList l
  | [], _, _, rs, tr => by
    intro _ _ h
    simp only [proposeSubGroups, Prod.mk.injEq, Sum.inr.injEq] at h
    obtain ⟨rfl, rfl⟩ := h
    exact ⟨MirrorsList.nil, rfl⟩
  | (subName, subGroup) :: rest, [], _, rs, tr => by
    intro hl1 _ h
    simp at hl1
  | (subName, subGroup) :: rest, vh :: vhs, [], rs, tr => by
    intro _ hl2 h
    simp at hl2
  | (subName, subGroup) :: rest, vh :: vhs, ph :: phs, rs, tr => by
    intro hl1 hl2 h
    simp only [List.length_cons, Nat.add_right_cancel_iff] at hl1 hl2
    rw [proposeSubGroups] at h
    rcases hpg : proposeGroup tx (name ++ "/" ++ subName) subGroup vh ph with ⟨e1 | r, trc⟩ <;>
      simp only [hpg] at h
    · simp only [Prod.mk.injEq] at h
      exact Sum.noConfusion h.1
    · rcases hps : proposeSubGroups tx name rest vhs phs with ⟨⟨built2, e2⟩ | rs2, tr2⟩ <;>
        simp only [hps] at h
      · simp only [Prod.mk.injEq] at h
        exact Sum.noConfusion h.1
      · simp only [Prod.mk.injEq, Sum.inr.injEq] at h
        obtain ⟨rfl, rfl⟩ := h
        obtain ⟨hm, hc⟩ := proposeGroup_ok_shape tx (name ++ "/" ++ subName) subGroup vh ph r trc hpg
        obtain ⟨hms, hcs⟩ := proposeSubGroups_ok_shape tx name rest vhs phs rs2 tr2 hl1 hl2 hps
        refine ⟨MirrorsList.cons r (subName, subGroup) rs2 rest hm hms, ?_⟩
        simp only [List.countP_append, pcWeightList]
        rw [hc, hcs]

end

/-- C3 counterexample: the claim as stated is false — on a successful run the
returned result does not have the same node count as the tree passed to
`processConfig`: the result additionally contains an entry for the synthetic
helper root, so a one-node input yields a two-node result. -/
theorem processConfig_result_extra_root :
    (processConfig cmOk leafGroup).1 =
      Except.ok (ConfigResult.mk leafGroup (nodeVP 1 [leafVP 2]) (nodePP 3 [leafPP 4])
        [ConfigResult.mk leafGroup (leafVP 2) (leafPP 4) []]) ∧
    (ConfigResult.mk leafGroup (nodeVP 1 [leafVP 2]) (nodePP 3 [leafPP 4])
      [ConfigResult.mk leafGroup (leafVP 2) (leafPP 4) []]).nodeCount = 2 ∧
    leafGroup.nodeCount = 1 ∧
    (ConfigResult.mk leafGroup (nodeVP 1 [leafVP 2]) (nodePP 3 [leafPP 4])
      [ConfigResult.mk leafGroup (leafVP 2) (leafPP 4) []]).nodeCount ≠
      leafGroup.nodeCount :=
  ⟨rfl, rfl, rfl, by decide⟩

/-- C3 (amended): Completeness on success — if `processConfig` succeeds, the
returned result mirrors the synthetic wrapped tree: its root is the entry for
the synthetic helper root, its single sub-result contains exactly one entry
per node of the input tree with the same nesting, and its node count is the
input tree's node count plus one (the helper root's entry). -/
theorem processConfig_ok_mirrors (cm : configManager) (g : ConfigGroup)
    (r : ConfigResult) (tr : List Event)
    (h : processConfig cm g = (Except.ok r, tr)) :
    ∃ r0, r.subResults = [r0] ∧ Mirrors r0 g ∧ r.nodeCount = g.nodeCount + 1 := by
  have h' : proposeGroup g "" (ConfigGroup.mk [(RootGroupKey, g)] [] [])
      cm.valueProposer cm.policyProposer = (Except.ok r, tr) := h
  obtain ⟨hm, _⟩ := proposeGroup_ok_shape g "" (ConfigGroup.mk [(RootGroupKey, g)] [] [])
    cm.valueProposer cm.policyProposer r tr h'
  have hcnt := mirrors_nodeCount hm
  cases hm with
  | mk tx hh pp subs gs vs ps hlist =>
    cases hlist with
    | cons r0 pr rs gs2 hm0 hl2 =>
      cases hl2 with
      | nil =>
        refine ⟨r0, rfl, hm0, ?_⟩
        rw [hcnt]
        simp [ConfigGroup.nodeCount, nodeCountList]
        omega

/-- C3 witness: the amended completeness applied to a concrete successful
run over a one-node tree. -/
theorem processConfig_ok_mirrors_witness :
    ∃ r0, (ConfigResult.mk leafGroup (nodeVP 1 [leafVP 2]) (nodePP 3 [leafPP 4])
      [ConfigResult.mk leafGroup (leafVP 2) (leafPP 4) []]).subResults = [r0] ∧
      Mirrors r0 leafGroup ∧
      (ConfigResult.mk leafGroup (nodeVP 1 [leafVP 2]) (nodePP 3 [leafPP 4])
        [ConfigResult.mk leafGroup (leafVP 2) (leafPP 4) []]).nodeCount =
        leafGroup.nodeCount + 1 :=
  processConfig_ok_mirrors cmOk leafGroup
    (ConfigResult.mk leafGroup (nodeVP 1 [leafVP 2]) (nodePP 3 [leafPP 4])
      [ConfigResult.mk leafGroup (leafVP 2) (leafPP 4) []])
    [Event.beginValue 1 leafGroup [RootGroupKey], Event.beginPolicy 3 leafGroup [RootGroupKey],
     Event.beginValue 2 leafGroup [], Event.beginPolicy 4 leafGroup [],
     Event.preCommitEv 2 leafGroup, Event.preCommitEv 2 leafGroup,
     Event.preCommitEv 1 leafGroup] rfl

/-- C4 counterexample: the claim as stated is false — `PreCommit` is not
invoked exactly once per node: on a successful run over a one-node tree the
child node's value handler (identity 2) receives `PreCommit` twice, once from
its own pass and once from the enclosing pass's cascade. -/
theorem processConfig_preCommit_twice :
    (processConfig cmOk leafGroup).1.isOk = true ∧
    List.countP (Event.isPreCommitOf 2) (processConfig cmOk leafGroup).2 = 2 ∧
    List.countP (Event.isPreCommitOf 2) (processConfig cmOk leafGroup).2 ≠ 1 :=
  ⟨rfl, rfl, by decide⟩

/-- C4 (amended): on a successful `processConfig` run, every invocation of
`PreCommit` happens inside the cascade of a completed pass — after the node's
own values, policies and its children's pre-commits in that cascade — and a
node is pre-committed once per enclosing completed pass rather than once in
total: the number of `PreCommit` events equals the `pcWeight` of the
attempted (synthetically wrapped) tree, the sum over nodes of depth+1. -/
theorem processConfig_ok_preCommit_count (cm : configManager) (g : ConfigGroup)
    (r : ConfigResult) (tr : List Event)
    (h : processConfig cm g = (Except.ok r, tr)) :
    List.countP Event.isPreCommit tr =
      (ConfigGroup.mk [(RootGroupKey, g)] [] []).pcWeight :=
  (proposeGroup_ok_shape g "" (ConfigGroup.mk [(RootGroupKey, g)] [] [])
    cm.valueProposer cm.policyProposer r tr h).2

/-- C4 witness: the pre-commit count formula applied to a concrete successful
run (three `PreCommit` events for a two-node attempted tree). -/
theorem processConfig_ok_preCommit_count_witness :
    List.countP Event.isPreCommit
      [Event.beginValue 1 leafGroup [RootGroupKey], Event.beginPolicy 3 leafGroup [RootGroupKey],
       Event.beginValue 2 leafGroup [], Event.beginPolicy 4 leafGroup [],
       Event.preCommitEv 2 leafGroup, Event.preCommitEv 2 leafGroup,
       Event.preCommitEv 1 leafGroup] =
      (ConfigGroup.mk [(RootGroupKey, leafGroup)] [] []).pcWeight :=
  processConfig_ok_preCommit_count cmOk leafGroup
    (ConfigResult.mk leafGroup (nodeVP 1 [leafVP 2]) (nodePP 3 [leafPP 4])
      [ConfigResult.mk leafGroup (leafVP 2) (leafPP 4) []])
    [Event.beginValue 1 leafGroup [RootGroupKey], Event.beginPolicy 3 leafGroup [RootGroupKey],
     Event.beginValue 2 leafGroup [], Event.beginPolicy 4 leafGroup [],
     Event.preCommitEv 2 leafGroup, Event.preCommitEv 2 leafGroup,
     Event.preCommitEv 1 leafGroup] rfl

theorem proposeSubGroups_eq_triples (tx : ConfigGroup) (name : String) :
    ∀ (l : List (String × ConfigGroup)) (vhs : List ValueProposer) (phs : List PolicyProposer),
      vhs.length = l.length → phs.length = l.length →
      proposeSubGroups tx name l vhs phs = proposeTriples tx name (l.zip (vhs.zip phs))
  | [], vhs, phs => by
    intro _ _
    simp [proposeSubGroups, proposeTriples]
  | (subName, subGroup) :: rest, [], phs => by
    intro hl1 _
    simp at hl1
  | (subName, subGroup) :: rest, vh :: vhs, [] => by
    intro _ hl2
    simp at hl2
  | (subName, subGroup) :: rest, vh :: vhs, ph :: phs => by
    intro hl1 hl2
    simp only [List.length_cons, Nat.add_right_cancel_iff] at hl1 hl2
    have ih := proposeSubGroups_eq_triples tx name rest vhs phs hl1 hl2
    simp only [List.zip_cons_cons, proposeSubGroups, proposeTriples]
    rw [ih]
    rfl

theorem proposeTriples_all_ok (tx : ConfigGroup) (name : String) :
    ∀ (ts : List ((String × ConfigGroup) × ValueProposer × PolicyProposer)),
      (∀ t ∈ ts, (childRun tx name t).1.isOk = true) →
      proposeTriples tx name ts =
        (Sum.inr (ts.map (childRes tx name)),
          (ts.map (fun t => (childRun tx name t).2)).flatten)
  | [] => by
    intro _
    simp [proposeTriples]
  | ((subName, subGroup), vh, ph) :: rest => by
    intro hall
    have hhead := hall _ (List.mem_cons_self _ _)
    have ih := proposeTriples_all_ok tx name rest
      (fun t ht => hall t (List.mem_cons_of_mem _ ht))
    simp only [proposeTriples]
    rcases hrun : proposeGroup tx (name ++ "/" ++ subName) subGroup vh ph with ⟨res, trc⟩
    have hcr : childRun tx name ((subName, subGroup), vh, ph) = (res, trc) := hrun
    rcases res with e | r
    · rw [hcr] at hhead
      simp [Except.isOk, Except.toBool] at hhead
    · rw [ih]
      simp only [List.map_cons, List.flatten_cons]
      have hres : childRes tx name ((subName, subGroup), vh, ph) = r := by
        simp only [childRes, hcr]
      rw [hres, hcr]

theorem proposeTriples_isRight_iff (tx : ConfigGroup) (name : String) :
    ∀ (ts : List ((String × ConfigGroup) × ValueProposer × PolicyProposer)),
      (proposeTriples tx name ts).1.isRight = true ↔
        ∀ t ∈ ts, (childRun tx name t).1.isOk = true
  | [] => by simp [proposeTriples]
  | ((subName, subGroup), vh, ph) :: rest => by
    have ih := proposeTriples_isRight_iff tx name rest
    simp only [proposeTriples]
    rcases hrun : proposeGroup tx (name ++ "/" ++ subName) subGroup vh ph with ⟨res, trc⟩
    have hcr : childRun tx name ((subName, subGroup), vh, ph) = (res, trc) := hrun
    rcases res with e | r
    · simp only [Sum.isRight]
      constructor
      · intro hk
        exact absurd hk (by simp)
      · intro hall
        have := hall _ (List.mem_cons_self _ _)
        rw [hcr] at this
        simp [Except.isOk, Except.toBool] at this
    · rcases hps : proposeTriples tx name rest with ⟨res2, tr2⟩
      rw [hps] at ih
      rcases res2 with ⟨built, e2⟩ | rs2
      · simp only [Sum.isRight]
        constructor
        · intro hk
          exact absurd hk (by simp)
        · intro hall
          have := ih.mpr (fun t ht => hall t (List.mem_cons_of_mem _ ht))
          simp at this
      · simp only [Sum.isRight, true_iff]
        intro t ht
        rcases List.mem_cons.mp ht with rfl | ht
        · rw [hcr]
          rfl
        · exact ih.mp rfl t ht

theorem preCommitList_isOk_iff : ∀ (rs : List ConfigResult),
    (preCommitList rs).1.isOk = true ↔ ∀ x ∈ rs, (x.preCommitRun).1.isOk = true
  | [] => by
    simp only [preCommitList]
    exact ⟨fun _ x hx => absurd hx (by simp), fun _ => rfl⟩
  | r :: rs => by
    have ih := preCommitList_isOk_iff rs
    simp only [preCommitList]
    rcases hpr : r.preCommitRun with ⟨res, tr⟩
    rcases hpl : preCommitList rs with ⟨res2, tr2⟩
    rw [hpl] at ih
    rcases res with e | u
    · simp only
      constructor
      · intro hk
        simp [Except.isOk, Except.toBool] at hk
      · intro hall
        have := hall r (List.mem_cons_self r rs)
        rw [hpr] at this
        simp [Except.isOk, Except.toBool] at this
    · simp only
      constructor
      · intro hk x hx
        rcases List.mem_cons.mp hx with rfl | hx
        · rw [hpr]
          simp [Except.isOk, Except.toBool]
        · exact ih.mp hk x hx
      · intro hall
        exact ih.mpr (fun x hx => hall x (List.mem_cons_of_mem r hx))

theorem preCommitRun_isOk_iff (tx : ConfigGroup) (h : ValueProposer) (p : PolicyProposer)
    (subs : List ConfigResult) :
    ((ConfigResult.mk tx h p subs).preCommitRun).1.isOk = true ↔
      (∀ x ∈ subs, (x.preCommitRun).1.isOk = true) ∧ (h.preCommit tx).isOk = true := by
  have hiff := preCommitList_isOk_iff subs
  simp only [ConfigResult.preCommitRun]
  rcases hpl : preCommitList subs with ⟨res, tr⟩
  rw [hpl] at hiff
  rcases res with e | u
  · simp only
    constructor
    · intro hk
      simp [Except.isOk, Except.toBool] at hk
    · intro ⟨hall, _⟩
      have := hiff.mpr hall
      simp [Except.isOk, Except.toBool] at this
  · rcases hc : h.preCommit tx with e2 | u2 <;> simp only
    · constructor
      · intro hk
        simp [Except.isOk, Except.toBool] at hk
      · intro hx
        exact absurd hx.2 (by simp [Except.isOk, Except.toBool])
    · constructor
      · intro _
        exact ⟨hiff.mp rfl, rfl⟩
      · intro _
        rfl

mutual

theorem preCommitRun_trace_pc : ∀ (r : ConfigResult),
    ∀ e ∈ (r.preCommitRun).2, e.isPreCommit = true
  | ConfigResult.mk tx h p subs => by
    intro e he
    have hl := preCommitList_trace_pc subs
    simp only [ConfigResult.preCommitRun] at he
    rcases hpl : preCommitList subs with ⟨res, tr⟩
    rw [hpl] at hl
    simp only [hpl] at he
    rcases res with e1 | u
    · exact hl e he
    · rcases hc : h.preCommit tx with e2 | u2 <;> simp only [hc] at he <;>
        rcases List.mem_append.mp he with h1 | h1
      · exact hl e h1
      · simp only [List.mem_cons, List.not_mem_nil, or_false] at h1
        subst h1
        rfl
      · exact hl e h1
      · simp only [List.mem_cons, List.not_mem_nil, or_false] at h1
        subst h1
        rfl

theorem preCommitList_trace_pc : ∀ (rs : List ConfigResult),
    ∀ e ∈ (preCommitList rs).2, e.isPreCommit = true
  | [] => by intro e he; simp [preCommitList] at he
  | r :: rs => by
    intro e he
    have hr := preCommitRun_trace_pc r
    have hrs := preCommitList_trace_pc rs
    simp only [preCommitList] at he
    rcases hpr : r.preCommitRun with ⟨res, tr⟩
    rw [hpr] at hr
    simp only [hpr] at he
    rcases res with e1 | u
    · exact hr e he
    · rcases hpl : preCommitList rs with ⟨res2, tr2⟩
      rw [hpl] at hrs
      simp only [hpl] at he
      rcases List.mem_append.mp he with h1 | h1
      · exact hr e h1
      · exact hrs e h1

end

theorem isPreCommit_not_isProposal {e : Event} (h : e.isPreCommit = true) :
    e.isProposal = false := by
  cases e <;> simp [Event.isPreCommit, Event.isProposal] at h ⊢

theorem exceptIsOk_error {α : Type} (e : GoError) :
    (Except.error e : Except GoError α).isOk = false := rfl

theorem exceptIsOk_ok {α : Type} (a : α) :
    (Except.ok a : Except GoError α).isOk = true := rfl

/-- C8: Order independence — fix a node's contents and contract-honoring
proposers (the `Begin…` answers succeed on both enumeration orders, with the
same deserializer and with the child handlers positionally aligned to the
names: the zipped (child, value handler, policy handler) triples of the
second run are a permutation of the first run's).  Then two `proposeGroup`
runs whose sibling lists are permutations of each other — the same tree
enumerated in two different orders, against the same transaction context —
have the same accept/reject outcome, and on acceptance they propose the same
multiset of leaf values and policies: the proposal events (`Deserialize` and
`ProposePolicy`) of one trace are a permutation of the other's.  Only the
sequencing of sibling calls may differ. -/
theorem proposeGroup_order_independence (tx : ConfigGroup) (name : String)
    (gs gs' : List (String × ConfigGroup)) (vs ps : List (String × String))
    (handler : ValueProposer) (policyHandler : PolicyProposer)
    (d : ValueDeserializer) (vhs vhs' : List ValueProposer) (phs phs' : List PolicyProposer)
    (hbv : handler.beginValueProposals tx (gs.map Prod.fst) = Except.ok (d, vhs))
    (hbv' : handler.beginValueProposals tx (gs'.map Prod.fst) = Except.ok (d, vhs'))
    (hbp : policyHandler.beginPolicyProposals tx (gs.map Prod.fst) = Except.ok phs)
    (hbp' : policyHandler.beginPolicyProposals tx (gs'.map Prod.fst) = Except.ok phs')
    (hl1 : vhs.length = gs.length) (hl2 : phs.length = gs.length)
    (hl1' : vhs'.length = gs'.length) (hl2' : phs'.length = gs'.length)
    (hperm : List.Perm (gs'.zip (vhs'.zip phs')) (gs.zip (vhs.zip phs))) :
    ((proposeGroup tx name (ConfigGroup.mk gs' vs ps) handler policyHandler).1.isOk =
      (proposeGroup tx name (ConfigGroup.mk gs vs ps) handler policyHandler).1.isOk) ∧
    ((proposeGroup tx name (ConfigGroup.mk gs vs ps) handler policyHandler).1.isOk = true →
      List.Perm
        (((proposeGroup tx name (ConfigGroup.mk gs' vs ps) handler policyHandler).2).filter
          Event.isProposal)
        (((proposeGroup tx name (ConfigGroup.mk gs vs ps) handler policyHandler).2).filter
          Event.isProposal)) := by
  have hET : proposeSubGroups tx name gs vhs phs =
      proposeTriples tx name (gs.zip (vhs.zip phs)) :=
    proposeSubGroups_eq_triples tx name gs vhs phs hl1 hl2
  have hET' : proposeSubGroups tx name gs' vhs' phs' =
      proposeTriples tx name (gs'.zip (vhs'.zip phs')) :=
    proposeSubGroups_eq_triples tx name gs' vhs' phs' hl1' hl2'
  by_cases hall : ∀ t ∈ gs.zip (vhs.zip phs), (childRun tx name t).1.isOk = true
  · have hall' : ∀ t ∈ gs'.zip (vhs'.zip phs'), (childRun tx name t).1.isOk = true :=
      fun t ht => hall t (hperm.subset ht)
    have hsub : proposeSubGroups tx name gs vhs phs =
        (Sum.inr ((gs.zip (vhs.zip phs)).map (childRes tx name)),
          ((gs.zip (vhs.zip phs)).map (fun t => (childRun tx name t).2)).flatten) := by
      rw [hET, proposeTriples_all_ok tx name _ hall]
    have hsub' : proposeSubGroups tx name gs' vhs' phs' =
        (Sum.inr ((gs'.zip (vhs'.zip phs')).map (childRes tx name)),
          ((gs'.zip (vhs'.zip phs')).map (fun t => (childRun tx name t).2)).flatten) := by
      rw [hET', proposeTriples_all_ok tx name _ hall']
    have hRS : List.Perm ((gs'.zip (vhs'.zip phs')).map (childRes tx name))
        ((gs.zip (vhs.zip phs)).map (childRes tx name)) := hperm.map _
    have hTR : List.Perm
        (((gs'.zip (vhs'.zip phs')).map (fun t => (childRun tx name t).2)).flatten)
        (((gs.zip (vhs.zip phs)).map (fun t => (childRun tx name t).2)).flatten) :=
      (hperm.map _).flatten
    rcases hde : deserializeValues d vs with ⟨resV, trV⟩
    rcases resV with e4 | cache
    · have hrun1 : (proposeGroup tx name (ConfigGroup.mk gs vs ps) handler policyHandler).1 =
          Except.error e4 := by
        rw [proposeGroup]
        simp only [hbv, hbp, List.length_map]
        rw [if_neg (by simp [hl1, hl2])]
        simp only [hsub, hde]
      have hrun1' : (proposeGroup tx name (ConfigGroup.mk gs' vs ps) handler policyHandler).1 =
          Except.error e4 := by
        rw [proposeGroup]
        simp only [hbv', hbp', List.length_map]
        rw [if_neg (by simp [hl1', hl2'])]
        simp only [hsub', hde]
      refine ⟨by rw [hrun1, hrun1'], ?_⟩
      intro hk
      rw [hrun1] at hk
      simp [Except.isOk, Except.toBool] at hk
    · rcases hpp : proposePolicies policyHandler tx ps with ⟨resP, trP⟩
      rcases resP with e5 | u
      · have hrun1 : (proposeGroup tx name (ConfigGroup.mk gs vs ps) handler policyHandler).1 =
            Except.error e5 := by
          rw [proposeGroup]
          simp only [hbv, hbp, List.length_map]
          rw [if_neg (by simp [hl1, hl2])]
          simp only [hsub, hde, hpp]
        have hrun1' : (proposeGroup tx name (ConfigGroup.mk gs' vs ps) handler policyHandler).1 =
            Except.error e5 := by
          rw [proposeGroup]
          simp only [hbv', hbp', List.length_map]
          rw [if_neg (by simp [hl1', hl2'])]
          simp only [hsub', hde, hpp]
        refine ⟨by rw [hrun1, hrun1'], ?_⟩
        intro hk
        rw [hrun1] at hk
        simp [Except.isOk, Except.toBool] at hk
      · have hpcEquiv :
            (((ConfigResult.mk tx handler policyHandler
              ((gs'.zip (vhs'.zip phs')).map (childRes tx name))).preCommitRun).1.isOk = true) ↔
            (((ConfigResult.mk tx handler policyHandler
              ((gs.zip (vhs.zip phs)).map (childRes tx name))).preCommitRun).1.isOk = true) := by
          rw [preCommitRun_isOk_iff, preCommitRun_isOk_iff]
          constructor
          · intro hx
            exact ⟨fun x hy => hx.1 x (hRS.mem_iff.mpr hy), hx.2⟩
          · intro hx
            exact ⟨fun x hy => hx.1 x (hRS.mem_iff.mp hy), hx.2⟩
        rcases hpc : (ConfigResult.mk tx handler policyHandler
            ((gs.zip (vhs.zip phs)).map (childRes tx name))).preCommitRun with ⟨resPC, trPC⟩
        rcases hpc' : (ConfigResult.mk tx handler policyHandler
            ((gs'.zip (vhs'.zip phs')).map (childRes tx name))).preCommitRun with ⟨resPC', trPC'⟩
        rw [hpc, hpc'] at hpcEquiv
        rcases resPC with e6 | u2
        · rcases resPC' with e6' | u2'
          · have hrun1 : (proposeGroup tx name (ConfigGroup.mk gs vs ps) handler policyHandler).1 =
                Except.error e6 := by
              rw [proposeGroup]
              simp only [hbv, hbp, List.length_map]
              rw [if_neg (by simp [hl1, hl2])]
              simp only [hsub, hde, hpp, hpc]
            have hrun1' : (proposeGroup tx name (ConfigGroup.mk gs' vs ps) handler policyHandler).1 =
                Except.error e6' := by
              rw [proposeGroup]
              simp only [hbv', hbp', List.length_map]
              rw [if_neg (by simp [hl1', hl2'])]
              simp only [hsub', hde, hpp, hpc']
            refine ⟨by rw [hrun1, hrun1']; rfl, ?_⟩
            intro hk
            rw [hrun1] at hk
            simp [Except.isOk, Except.toBool] at hk
          · exact absurd (hpcEquiv.mp rfl) (by simp [Except.isOk, Except.toBool])
        · rcases resPC' with e6' | u2'
          · exact absurd (hpcEquiv.mpr rfl) (by simp [Except.isOk, Except.toBool])
          · have hrun1 : (proposeGroup tx name (ConfigGroup.mk gs vs ps) handler policyHandler).1 =
                Except.ok (ConfigResult.mk tx handler policyHandler
                  ((gs.zip (vhs.zip phs)).map (childRes tx name))) := by
              rw [proposeGroup]
              simp only [hbv, hbp, List.length_map]
              rw [if_neg (by simp [hl1, hl2])]
              simp only [hsub, hde, hpp, hpc]
            have hrun1' : (proposeGroup tx name (ConfigGroup.mk gs' vs ps) handler policyHandler).1 =
                Except.ok (ConfigResult.mk tx handler policyHandler
                  ((gs'.zip (vhs'.zip phs')).map (childRes tx name))) := by
              rw [proposeGroup]
              simp only [hbv', hbp', List.length_map]
              rw [if_neg (by simp [hl1', hl2'])]
              simp only [hsub', hde, hpp, hpc']
            have hrun2 : (proposeGroup tx name (ConfigGroup.mk gs vs ps) handler policyHandler).2 =
                Event.beginValue handler.id tx (gs.map Prod.fst) ::
                Event.beginPolicy policyHandler.id tx (gs.map Prod.fst) ::
                (((gs.zip (vhs.zip phs)).map (fun t => (childRun tx name t).2)).flatten ++
                  trV ++ trP ++ trPC) := by
              rw [proposeGroup]
              simp only [hbv, hbp, List.length_map]
              rw [if_neg (by simp [hl1, hl2])]
              simp only [hsub, hde, hpp, hpc]
            have hrun2' : (proposeGroup tx name (ConfigGroup.mk gs' vs ps) handler policyHandler).2 =
                Event.beginValue handler.id tx (gs'.map Prod.fst) ::
                Event.beginPolicy policyHandler.id tx (gs'.map Prod.fst) ::
                (((gs'.zip (vhs'.zip phs')).map (fun t => (childRun tx name t).2)).flatten ++
                  trV ++ trP ++ trPC') := by
              rw [proposeGroup]
              simp only [hbv', hbp', List.length_map]
              rw [if_neg (by simp [hl1', hl2'])]
              simp only [hsub', hde, hpp, hpc']
            have hPCnil : trPC.filter Event.isProposal = [] := by
              rw [List.filter_eq_nil_iff]
              intro a ha
              have h1 := preCommitRun_trace_pc
                (ConfigResult.mk tx handler policyHandler
                  ((gs.zip (vhs.zip phs)).map (childRes tx name))) a (by rw [hpc]; exact ha)
              simp [isPreCommit_not_isProposal h1]
            have hPCnil' : trPC'.filter Event.isProposal = [] := by
              rw [List.filter_eq_nil_iff]
              intro a ha
              have h1 := preCommitRun_trace_pc
                (ConfigResult.mk tx handler policyHandler
                  ((gs'.zip (vhs'.zip phs')).map (childRes tx name))) a (by rw [hpc']; exact ha)
              simp [isPreCommit_not_isProposal h1]
            have hbA : ¬ Event.isProposal
                (Event.beginValue handler.id tx (List.map Prod.fst gs)) = true := by
              simp [Event.isProposal]
            have hbB : ¬ Event.isProposal
                (Event.beginPolicy policyHandler.id tx (List.map Prod.fst gs)) = true := by
              simp [Event.isProposal]
            have hbA' : ¬ Event.isProposal
                (Event.beginValue handler.id tx (List.map Prod.fst gs')) = true := by
              simp [Event.isProposal]
            have hbB' : ¬ Event.isProposal
                (Event.beginPolicy policyHandler.id tx (List.map Prod.fst gs')) = true := by
              simp [Event.isProposal]
            refine ⟨by rw [hrun1, hrun1']; rfl, ?_⟩
            intro _
            rw [hrun2, hrun2', List.filter_cons_of_neg hbA', List.filter_cons_of_neg hbB',
              List.filter_cons_of_neg hbA, List.filter_cons_of_neg hbB]
            simp only [List.filter_append, hPCnil, hPCnil', List.append_nil]
            exact ((hTR.filter Event.isProposal).append_right _).append_right _
  · have hallne' : ¬ ∀ t ∈ gs'.zip (vhs'.zip phs'), (childRun tx name t).1.isOk = true :=
      fun hA => hall (fun t ht => hA t (hperm.symm.subset ht))
    rcases hT : proposeTriples tx name (gs.zip (vhs.zip phs)) with ⟨resT, TR⟩
    rcases resT with ⟨built, e⟩ | rs
    · rcases hT' : proposeTriples tx name (gs'.zip (vhs'.zip phs')) with ⟨resT', TR'⟩
      rcases resT' with ⟨built', e'⟩ | rs'
      · have hsub : proposeSubGroups tx name gs vhs phs = (Sum.inl (built, e), TR) := by
          rw [hET, hT]
        have hsub' : proposeSubGroups tx name gs' vhs' phs' = (Sum.inl (built', e'), TR') := by
          rw [hET', hT']
        have hrun1 : (proposeGroup tx name (ConfigGroup.mk gs vs ps) handler policyHandler).1 =
            Except.error e := by
          rw [proposeGroup]
          simp only [hbv, hbp, List.length_map]
          rw [if_neg (by simp [hl1, hl2])]
          simp only [hsub]
        have hrun1' : (proposeGroup tx name (ConfigGroup.mk gs' vs ps) handler policyHandler).1 =
            Except.error e' := by
          rw [proposeGroup]
          simp only [hbv', hbp', List.length_map]
          rw [if_neg (by simp [hl1', hl2'])]
          simp only [hsub']
        refine ⟨by rw [hrun1, hrun1']; rfl, ?_⟩
        intro hk
        rw [hrun1] at hk
        simp [Except.isOk, Except.toBool] at hk
      · have hiff := proposeTriples_isRight_iff tx name (gs'.zip (vhs'.zip phs'))
        rw [hT'] at hiff
        exact absurd (hiff.mp rfl) hallne'
    · have hiff := proposeTriples_isRight_iff tx name (gs.zip (vhs.zip phs))
      rw [hT] at hiff
      exact absurd (hiff.mp rfl) hall

/-- C8 witness: a two-sibling tree enumerated in both orders against
name-aligned proposers: both runs accept, and the proposal events of one
trace are a permutation of the other's. -/
theorem proposeGroup_order_independence_witness :
    ((proposeGroup leafGroup "" (ConfigGroup.mk [("B", polGroup), ("A", valGroup)] [] [])
        (alignVP 20) (alignPP 30)).1.isOk =
      (proposeGroup leafGroup "" (ConfigGroup.mk [("A", valGroup), ("B", polGroup)] [] [])
        (alignVP 20) (alignPP 30)).1.isOk) ∧
    List.Perm
      (((proposeGroup leafGroup "" (ConfigGroup.mk [("B", polGroup), ("A", valGroup)] [] [])
        (alignVP 20) (alignPP 30)).2).filter Event.isProposal)
      (((proposeGroup leafGroup "" (ConfigGroup.mk [("A", valGroup), ("B", polGroup)] [] [])
        (alignVP 20) (alignPP 30)).2).filter Event.isProposal) := by
  have h := proposeGroup_order_independence leafGroup ""
    [("A", valGroup), ("B", polGroup)] [("B", polGroup), ("A", valGroup)] [] []
    (alignVP 20) (alignPP 30) okDeser
    [leafVP 21, leafVP 22] [leafVP 22, leafVP 21]
    [leafPP 31, leafPP 32] [leafPP 32, leafPP 31]
    rfl rfl rfl rfl rfl rfl rfl rfl
    (List.Perm.swap (("A", valGroup), leafVP 21, leafPP 31)
      (("B", polGroup), leafVP 22, leafPP 32) [])
  exact ⟨h.1, h.2 rfl⟩

/-- C8 counterexample: the claim as stated — for EVERY fixed set of proposers
— is false: a proposer whose `Begin…` answer depends on the enumeration order
of the sibling names (which the code permits: only the answer's length is
checked) makes the same tree accept under one sibling order and reject under
the other. -/
theorem proposeGroup_order_dependent_cex :
    (proposeGroup leafGroup "" (ConfigGroup.mk [("A", leafGroup), ("B", leafGroup)] [] [])
      (fussyVP 20) (alignPP 30)).1.isOk = true ∧
    (proposeGroup leafGroup "" (ConfigGroup.mk [("B", leafGroup), ("A", leafGroup)] [] [])
      (fussyVP 20) (alignPP 30)).1.isOk = false :=
  ⟨rfl, rfl⟩
